import Mathlib

/-!
# Dropbot: per-guild play queue, weighted clip selection and playback worker

A shallow embedding of `cmd/bot/bot.go`.  Go pointers that may be `nil` are
`Option`s, the process-wide map `queues` and the event stream seen by the voice
transport are threaded explicitly through a `World`, and run-time panics are the
`Except.error` results.  Go `int` values are `Int`: the only arithmetic on them is
the running sum of the clip weights, which are compile-time constants of the clip
tables (at most 1000 each), far below the 64-bit range.
-/

namespace Dropbot

/-! ## Data model -/

/-- Run-time panics of the Go program that the model can reach. -/
inductive Fault where
  /-- A method body dereferenced a nil pointer (`play.Sound.Play` on a nil `Sound`). -/
  | nilDereference
  /-- The call `make([]byte, opuslen)` with a negative length. -/
  | makesliceLenOutOfRange
  /-- The call `rand.Intn(n)` with `n <= 0`. -/
  | intnNonPositive
  /-- A send on a channel whose buffer is full: the caller blocks. -/
  | sendBlocks
  /-- The call `strings.Repeat(s, count)` with a negative count. -/
  | negativeRepeatCount
deriving DecidableEq, Repr

/-- One byte of an asset file or of an audio frame. -/
abbrev Byte := Nat

/-- One pre-encoded audio frame (`[]byte`). -/
abbrev Frame := List Byte

/-- The Go struct `Sound`: a sound clip. -/
structure Sound where
  Name : String
  Weight : Int
  PartDelay : Int
  buffer : List Frame
deriving DecidableEq, Repr

/-- The Go struct `SoundCollection`; `ChainWith` is a nilable pointer. -/
inductive SoundCollection where
  | mk (Prefix : String) (Commands : List String) (Sounds : List Sound)
      (ChainWith : Option SoundCollection) (soundRange : Int)

namespace SoundCollection

/-- Field `Prefix`. -/
def Prefix : SoundCollection → String
  | mk p _ _ _ _ => p

/-- Field `Commands`. -/
def Commands : SoundCollection → List String
  | mk _ c _ _ _ => c

/-- Field `Sounds`. -/
def Sounds : SoundCollection → List Sound
  | mk _ _ s _ _ => s

/-- Field `ChainWith`. -/
def ChainWith : SoundCollection → Option SoundCollection
  | mk _ _ _ c _ => c

/-- Field `soundRange`. -/
def soundRange : SoundCollection → Int
  | mk _ _ _ _ r => r

end SoundCollection

/-- The Go struct `Play`; `Sound` and `Next` are nilable pointers. -/
inductive Play where
  | mk (GuildID ChannelID UserID : String) (Sound : Option Sound) (Next : Option Play)
      (Forced : Bool)

namespace Play

/-- Field `GuildID`. -/
def GuildID : Play → String
  | mk g _ _ _ _ _ => g

/-- Field `ChannelID`. -/
def ChannelID : Play → String
  | mk _ c _ _ _ _ => c

/-- Field `UserID`. -/
def UserID : Play → String
  | mk _ _ u _ _ _ => u

/-- Field `Sound`. -/
def Sound : Play → Option Dropbot.Sound
  | mk _ _ _ s _ _ => s

/-- Field `Next`. -/
def Next : Play → Option Play
  | mk _ _ _ _ n _ => n

/-- Field `Forced`. -/
def Forced : Play → Bool
  | mk _ _ _ _ _ f => f

end Play

/-- Constructor `createSound`. -/
def createSound (Name : String) (Weight : Int) (PartDelay : Int) : Sound :=
  { Name := Name, Weight := Weight, PartDelay := PartDelay, buffer := [] }

/-- Global `MAX_QUEUE_SIZE`. -/
def MAX_QUEUE_SIZE : Nat := 6

/-! ## Weighted random selection -/

/-- Function `randomRange(min, max)`: `rand.Intn(max-min) + min`.  The generator is
an arbitrary natural number `r` reduced into the range; `rand.Intn` panics when its
argument is not positive. -/
def randomRange (min max : Int) (r : Nat) : Except Fault Int :=
  if max - min ≤ 0 then .error .intnNonPositive
  else .ok ((r : Int) % (max - min) + min)

/-- The loop of `SoundCollection.Random`: walk the clips accumulating weight into
`i` and return the first clip with `number < i`; `none` is the final `return nil`. -/
def SoundCollection.walk (number : Int) : Int → List Sound → Option Sound
  | _, [] => none
  | i, sound :: rest =>
    let i := i + sound.Weight
    if number < i then some sound else walk number i rest

/-- Method `SoundCollection.Random` given the value `number` drawn by
`randomRange(0, s.soundRange)`. -/
def SoundCollection.RandomAt (s : SoundCollection) (number : Int) : Option Sound :=
  SoundCollection.walk number 0 s.Sounds

/-- Method `SoundCollection.Random`: the draw, then the walk. -/
def SoundCollection.Random (s : SoundCollection) (r : Nat) : Except Fault (Option Sound) :=
  match randomRange 0 s.soundRange r with
  | .error f => .error f
  | .ok number => .ok (s.RandomAt number)

/-! ## Loading clips -/

/-- Go `error` values the modelled functions can return. -/
inductive Error where
  /-- The error of `os.Open` on a missing asset. -/
  | openFailed (path : String)
  /-- The value `io.EOF`. -/
  | EOF
  /-- The value `io.ErrUnexpectedEOF`. -/
  | ErrUnexpectedEOF
  /-- The error of `discord.ChannelVoiceJoin`. -/
  | voiceJoinFailed
deriving DecidableEq, Repr

/-- The value `binary.Read` stores into an `int16` from two little-endian bytes. -/
def int16LE (b0 b1 : Byte) : Int :=
  let u : Nat := b0 % 256 + 256 * (b1 % 256)
  if u < 32768 then (u : Int) else (u : Int) - 65536

/-- The `for` loop of `Sound.Load` over the unread bytes `rest` of the file, with the
clip's buffer `buf`.  Each iteration consumes at least two bytes, so the counter,
started at the file length, reaches 0 only when no byte is left (the `io.EOF` return).
The result is the returned error and the buffer. -/
def Sound.Load.loop : Nat → List Byte → List Frame → Except Fault (Option Error × List Frame)
  | 0, _, buf => .ok (none, buf)
  | fuel + 1, rest, buf =>
    match rest with
    | [] => .ok (none, buf)
    | [_] => .ok (none, buf)
    | b0 :: b1 :: rest =>
      let opuslen := int16LE b0 b1
      if opuslen < 0 then .error .makesliceLenOutOfRange
      else
        let n := opuslen.toNat
        if rest.length < n then
          .ok (some (if rest.length = 0 then .EOF else .ErrUnexpectedEOF), buf)
        else Sound.Load.loop fuel (rest.drop n) (buf ++ [rest.take n])

/-- Method `Sound.Load`: `fs` maps a path to the content of the file, `none` when
`os.Open` fails.  The result is the returned error and the clip afterwards. -/
def Sound.Load (fs : String → Option (List Byte)) (s : Sound) (c : SoundCollection) :
    Except Fault (Option Error × Sound) :=
  let path := "audio/" ++ c.Prefix ++ "_" ++ s.Name ++ ".dca"
  match fs path with
  | none => .ok (some (.openFailed path), s)
  | some file =>
    match Sound.Load.loop file.length file s.buffer with
    | .error f => .error f
    | .ok (err, buf) => .ok (err, { s with buffer := buf })

/-- The `range` loop of `SoundCollection.Load` over the clips not yet visited:
`soundRange` and the clips as updated so far. -/
def SoundCollection.Load.loop (fs : String → Option (List Byte)) (sc : SoundCollection) :
    List Sound → Int → Except Fault (List Sound × Int)
  | [], soundRange => .ok ([], soundRange)
  | sound :: rest, soundRange =>
    let soundRange := soundRange + sound.Weight
    match Sound.Load fs sound sc with
    | .error f => .error f
    | .ok (_, sound) =>
      match SoundCollection.Load.loop fs sc rest soundRange with
      | .error f => .error f
      | .ok (rest, soundRange) => .ok (sound :: rest, soundRange)

/-- Method `SoundCollection.Load`. -/
def SoundCollection.Load (fs : String → Option (List Byte)) (sc : SoundCollection) :
    Except Fault SoundCollection :=
  match SoundCollection.Load.loop fs sc sc.Sounds sc.soundRange with
  | .error f => .error f
  | .ok (sounds, soundRange) =>
    .ok (.mk sc.Prefix sc.Commands sounds sc.ChainWith soundRange)

/-! ## The chat service and the voice transport -/

/-- The struct `discordgo.User`. -/
structure User where
  ID : String
deriving DecidableEq, Repr

/-- The struct `discordgo.VoiceState`. -/
structure VoiceState where
  UserID : String
  ChannelID : String
deriving DecidableEq, Repr

/-- The struct `discordgo.Guild`. -/
structure Guild where
  ID : String
  VoiceStates : List VoiceState
deriving DecidableEq, Repr

/-- The struct `discordgo.Channel`. -/
structure Channel where
  ID : String
deriving DecidableEq, Repr

/-- The struct `discordgo.VoiceConnection`. -/
structure VoiceConnection where
  GuildID : String
  ChannelID : String
deriving DecidableEq, Repr

/-- The global `discord` session, as far as the bot consults it. -/
structure Discord where
  /-- The lookup `discord.State.Channel(id)`: the channel, `none` for nil. -/
  StateChannel : String → Option Channel
  /-- The error, if any, of `discord.ChannelVoiceJoin(guild, channel, false, false)`. -/
  ChannelVoiceJoin : String → String → Option Error

/-- Function `getCurrentVoiceChannel`. -/
def getCurrentVoiceChannel (d : Discord) (user : User) (guild : Guild) : Option Channel :=
  match guild.VoiceStates.find? (fun vs => vs.UserID == user.ID) with
  | some vs => d.StateChannel vs.ChannelID
  | none => none

/-! ## Building a play -/

/-- Function `createPlay`; `sound` is the explicit clip (`none` for nil), `r1` and `r2`
feed the random draws of `coll.Random()` and `coll.ChainWith.Random()`. -/
def createPlay (d : Discord) (user : User) (guild : Guild) (coll : SoundCollection)
    (sound : Option Sound) (r1 r2 : Nat) : Except Fault (Option Play) :=
  match getCurrentVoiceChannel d user guild with
  | none => .ok none
  | some channel =>
    let picked : Except Fault (Option Sound × Bool) :=
      match sound with
      | some s => .ok (some s, true)
      | none =>
        match coll.Random r1 with
        | .error f => .error f
        | .ok s => .ok (s, false)
    match picked with
    | .error f => .error f
    | .ok (clip, forced) =>
      match coll.ChainWith with
      | none => .ok (some (.mk guild.ID channel.ID user.ID clip none forced))
      | some chain =>
        match chain.Random r2 with
        | .error f => .error f
        | .ok s =>
          .ok (some (.mk guild.ID channel.ID user.ID clip
            (some (.mk guild.ID channel.ID user.ID s none forced)) forced))

/-! ## The registry and the playback worker -/

/-- A buffered Go channel of `*Play`: its capacity and the buffered values, oldest
first. -/
structure Chan where
  cap : Nat
  buf : List Play

/-- What the worker does to the outside, in program order. -/
inductive Event where
  /-- The call `discord.ChannelVoiceJoin(guild, channel, false, false)`. -/
  | voiceJoin (guild channel : String)
  /-- The call `vc.ChangeChannel(channel, false, false)`. -/
  | changeChannel (channel : String)
  /-- The call `time.Sleep` of so many milliseconds. -/
  | sleep (ms : Int)
  /-- The statement `go trackSoundStats(play)`. -/
  | trackSoundStats (play : Play)
  /-- The call `vc.Speaking(b)`. -/
  | speaking (b : Bool)
  /-- The send `vc.OpusSend <- frame`. -/
  | opusSend (frame : Frame)
  /-- The call `vc.Disconnect()`. -/
  | disconnect

/-- The mutable globals: the map `queues`, and the events emitted so far. -/
structure World where
  queues : String → Option Chan
  trace : List Event

namespace World

/-- Append events to the trace. -/
def emit (w : World) (es : List Event) : World :=
  { w with trace := w.trace ++ es }

/-- The assignment `queues[g] = c`. -/
def set (w : World) (g : String) (c : Chan) : World :=
  { w with queues := fun k => if k = g then some c else w.queues k }

/-- The call `delete(queues, g)`. -/
def delete (w : World) (g : String) : World :=
  { w with queues := fun k => if k = g then none else w.queues k }

end World

/-- Method `Sound.Play`, as the events it sends to the connection. -/
def Sound.Play (s : Sound) : List Event :=
  [.speaking true] ++ s.buffer.map .opusSend ++ [.speaking false]

/-- What a call of `playSound` leaves behind: the returned `err`, the connection as
the call left it (`none` when none was opened) and the globals. -/
structure PlayResult where
  err : Option Error
  vc : Option VoiceConnection
  world : World

/-- The block `if vc == nil { ... }` of `playSound`: the connection to play on, or
the error of `discord.ChannelVoiceJoin`. -/
def playSound.join (d : Discord) (play : Play) (vc : Option VoiceConnection) (w : World) :
    Except Error VoiceConnection × World :=
  match vc with
  | some vc => (.ok vc, w)
  | none =>
    let w := w.emit [.voiceJoin play.GuildID play.ChannelID]
    match d.ChannelVoiceJoin play.GuildID play.ChannelID with
    | some e => (.error e, w)
    | none => (.ok { GuildID := play.GuildID, ChannelID := play.ChannelID }, w)

/-- The block `if vc.ChannelID != play.ChannelID { ... }` of `playSound`. -/
def playSound.changeChannel (play : Play) (vc : VoiceConnection) (w : World) :
    VoiceConnection × World :=
  if vc.ChannelID ≠ play.ChannelID then
    ({ vc with ChannelID := play.ChannelID },
      w.emit [.changeChannel play.ChannelID, .sleep 125])
  else (vc, w)

/-- The last block of `playSound`: pause for the clip's `PartDelay`, delete the
guild's queue, disconnect. -/
def playSound.teardown (play : Play) (sound : Sound) (w : World) : World :=
  ((w.emit [.sleep sound.PartDelay]).delete play.GuildID).emit [.disconnect]

/-- Function `playSound(play, vc)`.  The first argument bounds the depth of the
recursion; `none` means the bound was too small. -/
def playSound (d : Discord) : Nat → Play → Option VoiceConnection → World →
    Option (Except Fault PlayResult)
  | 0, _, _, _ => none
  | fuel + 1, play, vc, w =>
    match playSound.join d play vc w with
    | (.error e, w) => some (.ok { err := some e, vc := none, world := w.delete play.GuildID })
    | (.ok vc, w) =>
      match playSound.changeChannel play vc w with
      | (vc, w) =>
        let w := w.emit [.trackSoundStats play, .sleep 32]
        match play.Sound with
        | none => some (.error .nilDereference)
        | some sound =>
          let w := w.emit sound.Play
          let chained : Option (Except Fault (VoiceConnection × World)) :=
            match play.Next with
            | none => some (.ok (vc, w))
            | some next =>
              match playSound d fuel next (some vc) w with
              | none => none
              | some (.error f) => some (.error f)
              | some (.ok r) => some (.ok (r.vc.getD vc, r.world))
          match chained with
          | none => none
          | some (.error f) => some (.error f)
          | some (.ok (vc, w)) =>
            match w.queues play.GuildID with
            | some { cap := cap, buf := next :: rest } =>
              let w := w.set play.GuildID { cap := cap, buf := rest }
              match playSound d fuel next (some vc) w with
              | none => none
              | some (.error f) => some (.error f)
              | some (.ok r) =>
                some (.ok { err := none, vc := some (r.vc.getD vc), world := r.world })
            | _ =>
              some (.ok { err := none, vc := some vc, world := playSound.teardown play sound w })

/-- The body of `enqueuePlay` from the lookup `queues[guild.ID]` up to, and not
including, the call of `playSound`: the globals afterwards, and whether the worker
is to be started with `play`. -/
def enqueuePlay.register (maxQueueSize : Nat) (guildID : String) (play : Play) (w : World) :
    Except Fault (World × Bool) :=
  match w.queues guildID with
  | some q =>
    if q.buf.length < maxQueueSize then
      if q.buf.length < q.cap then
        .ok (w.set guildID { q with buf := q.buf ++ [play] }, false)
      else .error .sendBlocks
    else .ok (w, false)
  | none => .ok (w.set guildID { cap := maxQueueSize, buf := [] }, true)

/-- Function `enqueuePlay`, run to completion: the globals when it returns. -/
def enqueuePlay (d : Discord) (maxQueueSize : Nat) (fuel : Nat) (user : User) (guild : Guild)
    (coll : SoundCollection) (sound : Option Sound) (r1 r2 : Nat) (w : World) :
    Option (Except Fault World) :=
  match createPlay d user guild coll sound r1 r2 with
  | .error f => some (.error f)
  | .ok none => some (.ok w)
  | .ok (some play) =>
    match enqueuePlay.register maxQueueSize guild.ID play w with
    | .error f => some (.error f)
    | .ok (w, false) => some (.ok w)
    | .ok (w, true) =>
      match playSound d fuel play none w with
      | none => none
      | some (.error f) => some (.error f)
      | some (.ok r) => some (.ok r.world)

/-! ## Observations used in the statements -/

/-- Structural decision procedure for equality of plays. -/
def Play.decEq : (a b : Play) → Decidable (a = b)
  | .mk g c u s n f, .mk g' c' u' s' n' f' =>
    if h : g = g' ∧ c = c' ∧ u = u' ∧ s = s' ∧ f = f' then
      match n, n' with
      | none, none =>
        isTrue (by obtain ⟨h1, h2, h3, h4, h5⟩ := h; subst h1 h2 h3 h4 h5; rfl)
      | some x, some y =>
        match Play.decEq x y with
        | isTrue hxy =>
          isTrue (by obtain ⟨h1, h2, h3, h4, h5⟩ := h; subst h1 h2 h3 h4 h5 hxy; rfl)
        | isFalse hxy =>
          isFalse (by
            intro e; injection e with _ _ _ _ e5 _; injection e5 with e5; exact hxy e5)
      | none, some _ =>
        isFalse (by intro e; injection e with _ _ _ _ e5 _; exact Option.noConfusion e5)
      | some _, none =>
        isFalse (by intro e; injection e with _ _ _ _ e5 _; exact Option.noConfusion e5)
    else
      isFalse (by intro e; injection e with e1 e2 e3 e4 e5 e6; exact h ⟨e1, e2, e3, e4, e6⟩)

instance : DecidableEq Play := Play.decEq

deriving instance DecidableEq for Event

/-- Sum of the weights of the first `k` clips of a list. -/
def weightBefore (l : List Sound) (k : Nat) : Int :=
  ((l.take k).map Sound.Weight).sum

/-- Sum of the weights of all the clips of a list. -/
def totalWeight (l : List Sound) : Int :=
  (l.map Sound.Weight).sum

/-- The plays handed to `go trackSoundStats(play)`, in order: one per call of
`playSound` that got as far as playing. -/
def played : List Event → List Play
  | [] => []
  | .trackSoundStats p :: es => p :: played es
  | _ :: es => played es

/-- The frame sequences the transport saw, one per `Speaking(true)` ...
`Speaking(false)` bracket, in order; `cur` holds the frames of the bracket that is
open, if any. -/
def sentClipsFrom (cur : Option (List Frame)) : List Event → List (List Frame)
  | [] => []
  | e :: es =>
    match e, cur with
    | .speaking true, _ => sentClipsFrom (some []) es
    | .speaking false, some acc => acc :: sentClipsFrom none es
    | .opusSend f, some acc => sentClipsFrom (some (acc ++ [f])) es
    | _, _ => sentClipsFrom cur es

/-- The frame sequences the transport saw, one per clip played. -/
def sentClips (t : List Event) : List (List Frame) :=
  sentClipsFrom none t

/-- Number of `vc.Disconnect()` calls in a trace. -/
def disconnects : List Event → Nat
  | [] => 0
  | .disconnect :: es => disconnects es + 1
  | _ :: es => disconnects es

/-- The pauses that directly precede a `vc.Disconnect()` call, in order. -/
def pausesBeforeDisconnect : List Event → List Int
  | .sleep ms :: .disconnect :: es => ms :: pausesBeforeDisconnect es
  | _ :: es => pausesBeforeDisconnect es
  | [] => []

/-- A request and its chained follow-up, in the order they are to be played. -/
def Play.withNext (p : Play) : List Play :=
  match p.Next with
  | none => [p]
  | some n => [p, n]

/-- The frames of the clip of a play (none when the clip is nil). -/
def Play.frames (p : Play) : List Frame :=
  match p.Sound with
  | none => []
  | some s => s.buffer

/-- A play as `createPlay` builds it for guild `g` from loaded collections: it is
filed under `g`, its clip is resolved, and its follow-up, if any, is filed under
`g`, has a clip and is not chained further. -/
def Play.wellBuilt (g : String) (p : Play) : Bool :=
  p.GuildID == g && p.Sound.isSome &&
    (match p.Next with
     | none => true
     | some n => n.GuildID == g && n.Sound.isSome && n.Next.isNone)

/-- Requests offered to `enqueuePlay` one after the other while the guild is Active
and before the worker looks at the queue: the registry part of each call. -/
def registerAll (maxQueueSize : Nat) (guildID : String) : List Play → World → Except Fault World
  | [], w => .ok w
  | p :: ps, w =>
    match enqueuePlay.register maxQueueSize guildID p w with
    | .error f => .error f
    | .ok (w, _) => registerAll maxQueueSize guildID ps w

/-- The invariant of the registry: every queue was made with capacity
`maxQueueSize` and holds at most that many requests. -/
def World.Bounded (maxQueueSize : Nat) (w : World) : Prop :=
  ∀ g q, w.queues g = some q → q.cap = maxQueueSize ∧ q.buf.length ≤ maxQueueSize

/-- The worlds the program can be in: it starts with an empty registry, and from then
on a request is admitted by `enqueuePlay`, or a worker `playSound` runs. -/
inductive Reachable (d : Discord) (maxQueueSize : Nat) : World → Prop where
  | init : Reachable d maxQueueSize { queues := fun _ => none, trace := [] }
  | enqueue (w w1 : World) (guildID : String) (play : Play) (start : Bool) :
      Reachable d maxQueueSize w →
      enqueuePlay.register maxQueueSize guildID play w = .ok (w1, start) →
      Reachable d maxQueueSize w1
  | worker (w : World) (fuel : Nat) (play : Play) (vc : Option VoiceConnection)
      (r : PlayResult) :
      Reachable d maxQueueSize w →
      playSound d fuel play vc w = some (.ok r) →
      Reachable d maxQueueSize r.world

/-- Between `w` and `w1` no queue was created or extended: every queue of `w1` is a
queue of `w` with some requests taken from its head. -/
def World.Shrinks (w w1 : World) : Prop :=
  ∀ k q1, w1.queues k = some q1 →
    ∃ q pre, w.queues k = some q ∧ q1.cap = q.cap ∧ q.buf = pre ++ q1.buf

/-- The events of one call of `playSound` up to and including the clip, on a
connection `vc` that is already open. -/
def playSound.clipEvents (play : Play) (sound : Sound) (vc : VoiceConnection) : List Event :=
  (if vc.ChannelID ≠ play.ChannelID then [.changeChannel play.ChannelID, .sleep 125] else []) ++
    [.trackSoundStats play, .sleep 32] ++ sound.Play

/-- The trace `t` shows exactly the plays `ps`: they were handed to the stats in this
order, and the transport saw their clips, frame for frame, in this order, whatever
follows `t`. -/
def Plays (t : List Event) (ps : List Play) : Prop :=
  played t = ps ∧
    ∀ rest, sentClipsFrom none (t ++ rest) = ps.map Play.frames ++ sentClipsFrom none rest

/-- A worker session for guild `g` that took the world from `w` to `w1`: it played
exactly `ps`, left `g` without a registry entry and touched no other guild. -/
def Session (g : String) (w w1 : World) (ps : List Play) : Prop :=
  w1.queues g = none ∧ (∀ k, k ≠ g → w1.queues k = w.queues k) ∧
    ∃ t, w1.trace = w.trace ++ t ∧ Plays t ps

/-! ## Concrete data for the worked instances -/

/-- Three clips of the `airhorn` table, as `createSound` makes them. -/
def exClips : List Sound :=
  [createSound "default" 1000 250, createSound "reverb" 800 250, createSound "spam" 800 0]

/-- A freshly constructed collection: `soundRange` is still 0. -/
def exFresh : SoundCollection :=
  .mk "airhorn" ["!airhorn"] exClips none 0

/-- Asset files: two frames for `default`, one for `reverb`, none for `spam`. -/
def exFiles : String → Option (List Byte) := fun path =>
  if path = "audio/airhorn_default.dca" then some [2, 0, 10, 11, 1, 0, 12]
  else if path = "audio/airhorn_reverb.dca" then some [1, 0, 7]
  else none

/-- The clips of `exFresh` after `Load` over `exFiles`. -/
def exLoadedClips : List Sound :=
  [{ Name := "default", Weight := 1000, PartDelay := 250, buffer := [[10, 11], [12]] },
   { Name := "reverb", Weight := 800, PartDelay := 250, buffer := [[7]] },
   { Name := "spam", Weight := 800, PartDelay := 0, buffer := [] }]

/-- The collection `exFresh` after `Load` over `exFiles`. -/
def exLoaded : SoundCollection :=
  .mk "airhorn" ["!airhorn"] exLoadedClips none 2600

/-- A clip that is chained to. -/
def exEcho : Sound :=
  { Name := "echo", Weight := 5, PartDelay := 100, buffer := [[9]] }

/-- A collection that is chained with `exLoaded`. -/
def exMiddle : SoundCollection :=
  .mk "another" ["!another"] [exEcho] (some exLoaded) 5

/-- A collection chained with `exMiddle`, itself a chained collection. -/
def exChained : SoundCollection :=
  .mk "anotha" ["!anotha"] exLoadedClips (some exMiddle) 2600

/-- A session whose voice joins succeed and that knows every channel. -/
def exDiscord : Discord :=
  { StateChannel := fun c => some { ID := c }, ChannelVoiceJoin := fun _ _ => none }

/-- A session whose voice joins fail. -/
def exDiscordDown : Discord :=
  { StateChannel := fun c => some { ID := c },
    ChannelVoiceJoin := fun _ _ => some .voiceJoinFailed }

/-- A requester. -/
def exUser : User := { ID := "u1" }

/-- A guild in which `exUser` sits in channel `c1`. -/
def exGuild : Guild :=
  { ID := "G", VoiceStates := [{ UserID := "u0", ChannelID := "c0" },
                               { UserID := "u1", ChannelID := "c1" }] }

/-- A request of guild `G` for the clip called `name`, with no follow-up. -/
def exRequest (name : String) : Play :=
  .mk "G" "c1" "u1" (some { Name := name, Weight := 1, PartDelay := 250, buffer := [[1]] })
    none false

/-- Requests B, C, D, E, F, G2, H of the scenario, in arrival order. -/
def exLater : List Play :=
  [exRequest "B", exRequest "C", exRequest "D", exRequest "E", exRequest "F",
   exRequest "G2", exRequest "H"]

/-- The follow-up of `exParent`. -/
def exFollowUp : Play :=
  .mk "G" "c1" "u1" (some exEcho) none false

/-- A chained request: its clip pauses 250 ms before a disconnect, the clip of its
follow-up 100 ms. -/
def exParent : Play :=
  .mk "G" "c1" "u1"
    (some { Name := "default", Weight := 1000, PartDelay := 250, buffer := [[10, 11], [12]] })
    (some exFollowUp) false

/-- The world at start-up: no queue, nothing done yet. -/
def exIdle : World := { queues := fun _ => none, trace := [] }

/-- A world in which guild `G` is Active with a queue of capacity 6 holding `buf`. -/
def exActive (buf : List Play) : World :=
  { queues := fun k => if k = "G" then some { cap := MAX_QUEUE_SIZE, buf := buf } else none,
    trace := [] }

/-- What the worker of `exParent` did, on an empty queue: how many disconnects, the
pauses before them, and whether guild `G` ended without registry entry. -/
def exTeardown (r : Option (Except Fault PlayResult)) : Option (Nat × List Int × Bool) :=
  match r with
  | some (.ok r) =>
    some (disconnects r.world.trace, pausesBeforeDisconnect r.world.trace,
      (r.world.queues "G").isNone)
  | _ => none

/-! ## A session without chained requests -/

/-- The `PartDelay` of the clip of a play (0 when the clip is nil). -/
def Play.partDelay (p : Play) : Int :=
  match p.Sound with
  | none => 0
  | some s => s.PartDelay

/-- The last of the plays `p`, then `ps`. -/
def lastPlay (p : Play) : List Play → Play
  | [] => p
  | x :: xs => lastPlay x xs

/-- The worker loop of the spec, steps 2 to 4 for each request in turn on the open
connection `vc`: switch the channel if it differs, dispatch the stats, pause, send
the clip.  After a request the connection is in that request's channel. -/
def sessionEvents : VoiceConnection → List Play → List Event
  | _, [] => []
  | vc, p :: ps =>
    match p.Sound with
    | none => []
    | some s =>
      playSound.clipEvents p s vc ++ sessionEvents { vc with ChannelID := p.ChannelID } ps

/-- Requests A (in channel `c1`) and Z (in channel `c2`, pausing 40 ms before a
disconnect), neither chained. -/
def exSwitch : Play :=
  .mk "G" "c2" "u2" (some { Name := "Z", Weight := 1, PartDelay := 40, buffer := [[2]] })
    none false

/-! ## Asset files -/

/-- The path `Sound.Load` opens for clip `s` of collection `c`. -/
def Sound.path (s : Sound) (c : SoundCollection) : String :=
  "audio/" ++ c.Prefix ++ "_" ++ s.Name ++ ".dca"

/-- A frame as it is written to an asset file: its length as a 2-byte little-endian
integer, then its bytes. -/
def encodeFrame (f : Frame) : List Byte :=
  [f.length % 256, f.length / 256 % 256] ++ f

/-- The byte stream of a list of frames, each preceded by its length. -/
def encodeFrames (frames : List Frame) : List Byte :=
  frames.flatMap encodeFrame

/-- The bytes `file` start with the frames `frames`, each behind a 2-byte header that
decodes to its length, and go on with the bytes `tail`. -/
inductive Framed : List Byte → List Frame → List Byte → Prop where
  | done (tail : List Byte) : Framed tail [] tail
  | frame (b0 b1 : Byte) (f : Frame) (rest : List Byte) (frames : List Frame)
      (tail : List Byte) :
      int16LE b0 b1 = (f.length : Int) → Framed rest frames tail →
      Framed (b0 :: b1 :: (f ++ rest)) (f :: frames) tail

/-- No frame header of `file` decodes to a negative length. -/
def NoNegativeLength (file : List Byte) : Prop :=
  ∀ frames b0 b1 tail, Framed file frames (b0 :: b1 :: tail) → 0 ≤ int16LE b0 b1

/-! ## The bomb command -/

/-- The `for` loop of `airhornBomb`: `n` more rounds of `AIRHORN.Random().Play(vc)`,
the round numbered `i` drawing from `rs i`. -/
def airhornBomb.loop (AIRHORN : SoundCollection) (rs : Nat → Nat) :
    Nat → Nat → World → Except Fault World
  | 0, _, w => .ok w
  | n + 1, i, w =>
    match AIRHORN.Random (rs i) with
    | .error f => .error f
    | .ok none => .error .nilDereference
    | .ok (some sound) => airhornBomb.loop AIRHORN rs n (i + 1) (w.emit sound.Play)

/-- Function `airhornBomb`, with `count` the value `strconv.Atoi(cs)` returned.  The
text message it sends first goes to the chat API, which the trace of the voice
transport does not record; building that message panics on a negative count. -/
def airhornBomb (d : Discord) (AIRHORN : SoundCollection) (guild : Guild) (user : User)
    (count : Int) (r1 r2 : Nat) (rs : Nat → Nat) (w : World) : Except Fault World :=
  if count < 0 then .error .negativeRepeatCount
  else if count > 100 then .ok w
  else
    match createPlay d user guild AIRHORN none r1 r2 with
    | .error f => .error f
    | .ok none => .error .nilDereference
    | .ok (some play) =>
      let w := w.emit [.voiceJoin play.GuildID play.ChannelID]
      match d.ChannelVoiceJoin play.GuildID play.ChannelID with
      | some _ => .ok w
      | none =>
        match airhornBomb.loop AIRHORN rs count.toNat 0 w with
        | .error f => .error f
        | .ok w => .ok (w.emit [.disconnect])

/-! ## Statistics -/

/-- A command queued on the pipeline of the statistics store. -/
inductive Command where
  /-- The call `pipe.Incr(key)`. -/
  | Incr (key : String)
  /-- The call `pipe.SAdd(key, member)`. -/
  | SAdd (key member : String)
deriving DecidableEq, Repr

/-- Field `key` of a command. -/
def Command.key : Command → String
  | .Incr k => k
  | .SAdd k _ => k

/-- Whether a command is an increment. -/
def Command.isIncr : Command → Bool
  | .Incr _ => true
  | .SAdd _ _ => false

/-- The client `rcli`: the error, if any, of executing a pipeline of commands. -/
structure RedisClient where
  Exec : List Command → Option String

/-- What `trackSoundStats` did: the pipelines it had executed and the warnings it
logged.  The Go function returns nothing. -/
structure StatsResult where
  batches : List (List Command)
  warnings : List String
deriving DecidableEq, Repr

/-- Function `trackSoundStats`, with the global `rcli` as an argument (`none` for
nil). -/
def trackSoundStats (rcli : Option RedisClient) (play : Play) : Except Fault StatsResult :=
  match rcli with
  | none => .ok { batches := [], warnings := [] }
  | some cli =>
    let baseChar := if play.Forced then "f" else "a"
    let base := "airhorn:" ++ baseChar
    match play.Sound with
    | none => .error .nilDereference
    | some sound =>
      let batch : List Command :=
        [.Incr "airhorn:total",
         .Incr (base ++ ":total"),
         .Incr (base ++ ":sound:" ++ sound.Name),
         .Incr (base ++ ":user:" ++ play.UserID ++ ":sound:" ++ sound.Name),
         .Incr (base ++ ":guild:" ++ play.GuildID ++ ":sound:" ++ sound.Name),
         .Incr (base ++ ":guild:" ++ play.GuildID ++ ":chan:" ++ play.ChannelID ++
           ":sound:" ++ sound.Name),
         .SAdd (base ++ ":users") play.UserID,
         .SAdd (base ++ ":guilds") play.GuildID,
         .SAdd (base ++ ":channels") play.ChannelID]
      match cli.Exec batch with
      | some err =>
        .ok { batches := [batch], warnings := ["Failed to track stats in redis: " ++ err] }
      | none => .ok { batches := [batch], warnings := [] }

/-! ## Concurrent calls of `enqueuePlay` -/

/-- The statement `_, exists := queues[guild.ID]` of `enqueuePlay`. -/
def enqueuePlay.lookup (guildID : String) (w : World) : Bool :=
  (w.queues guildID).isSome

/-- The statement `if exists { ... } else { ... }` of `enqueuePlay` up to, and not
including, the call of `playSound`, run with the value `found` that the lookup
returned earlier.  A nil channel has length 0 and blocks a send forever. -/
def enqueuePlay.branch (maxQueueSize : Nat) (guildID : String) (play : Play) (found : Bool)
    (w : World) : Except Fault (World × Bool) :=
  if found then
    match w.queues guildID with
    | some q =>
      if q.buf.length < maxQueueSize then
        if q.buf.length < q.cap then
          .ok (w.set guildID { q with buf := q.buf ++ [play] }, false)
        else .error .sendBlocks
      else .ok (w, false)
    | none => if 0 < maxQueueSize then .error .sendBlocks else .ok (w, false)
  else .ok (w.set guildID { cap := maxQueueSize, buf := [] }, true)

/-- One goroutine `go enqueuePlay(...)` whose `createPlay` returned `play`: `seen` is
the value of `exists` once the lookup has run, `finished` says that the branch has
run. -/
structure Call where
  guildID : String
  play : Play
  seen : Option Bool
  finished : Bool

/-- The globals, the goroutines running `enqueuePlay`, and the plays for which
`playSound(play, nil)` has been called, in the order of the calls. -/
structure Sys where
  world : World
  calls : List Call
  workers : List Play

/-- Goroutine `i` runs its next statement: the lookup if it has not run yet, else the
branch.  `none` when there is no such goroutine, it has finished, or it faults. -/
def Sys.step (maxQueueSize : Nat) (s : Sys) (i : Nat) : Option Sys :=
  match s.calls[i]? with
  | none => none
  | some c =>
    if c.finished then none
    else
      match c.seen with
      | none =>
        let c1 : Call := { c with seen := some (enqueuePlay.lookup c.guildID s.world) }
        some { world := s.world, calls := s.calls.set i c1, workers := s.workers }
      | some found =>
        match enqueuePlay.branch maxQueueSize c.guildID c.play found s.world with
        | .error _ => none
        | .ok (w, start) =>
          let c1 : Call := { c with finished := true }
          some { world := w, calls := s.calls.set i c1,
                 workers := if start then s.workers ++ [c.play] else s.workers }

/-- A schedule: the goroutines in the order in which they get to run one statement. -/
def Sys.run (maxQueueSize : Nat) : List Nat → Sys → Option Sys
  | [], s => some s
  | i :: is, s =>
    match Sys.step maxQueueSize s i with
    | none => none
    | some s => Sys.run maxQueueSize is s

/-! ## More concrete data -/

/-- A user with no voice state in `exGuild`. -/
def exStranger : User := { ID := "u9" }

/-- Asset files in which the second frame of `default` is cut short: its header
announces 3 bytes and 1 follows. -/
def exTruncated : String → Option (List Byte) := fun path =>
  if path = "audio/airhorn_default.dca" then some [2, 0, 10, 11, 3, 0, 12]
  else if path = "audio/airhorn_reverb.dca" then some [1, 0, 7]
  else none

/-- Asset files in which the header of `default` decodes to the length -1. -/
def exNegative : String → Option (List Byte) := fun path =>
  if path = "audio/airhorn_default.dca" then some [255, 255, 1] else none

/-- A statistics store whose pipelines succeed. -/
def exRedis : RedisClient := { Exec := fun _ => none }

/-- A statistics store whose pipelines fail. -/
def exRedisDown : RedisClient := { Exec := fun _ => some "connection refused" }

/-- Three goroutines `go enqueuePlay(...)` for guild `G`, none of which has run a
statement yet, in a world without queues. -/
def exRace : Sys :=
  { world := exIdle,
    calls := [{ guildID := "G", play := exRequest "A", seen := none, finished := false },
              { guildID := "G", play := exRequest "B", seen := none, finished := false },
              { guildID := "G", play := exRequest "C", seen := none, finished := false }],
    workers := [] }

/-- What a schedule led to: the workers started, and the queue of guild `G`. -/
def exOutcome (s : Option Sys) : Option (List Play × Option (List Play)) :=
  match s with
  | none => none
  | some s => some (s.workers, (s.world.queues "G").map Chan.buf)

/-! ## Weighted selection: `SoundCollection.Random` -/

theorem weightBefore_zero (l : List Sound) : weightBefore l 0 = 0 := by
  simp [weightBefore]

theorem weightBefore_cons_succ (s : Sound) (l : List Sound) (k : Nat) :
    weightBefore (s :: l) (k + 1) = s.Weight + weightBefore l k := by
  simp [weightBefore]

theorem weightBefore_length (l : List Sound) : weightBefore l l.length = totalWeight l := by
  simp [weightBefore, totalWeight]

theorem walk_first (n : Int) (l : List Sound) :
    ∀ (i : Int) (k : Nat), k < l.length → n < i + weightBefore l (k + 1) →
      (∀ j, j < k → i + weightBefore l (j + 1) ≤ n) →
      SoundCollection.walk n i l = l[k]? := by
  induction l with
  | nil => intro i k hk; simp at hk
  | cons s rest ih =>
    intro i k hk hgt hmin
    cases k with
    | zero =>
      have h : n < i + s.Weight := by
        simpa [weightBefore_cons_succ, weightBefore_zero] using hgt
      simp [SoundCollection.walk, h]
    | succ k =>
      have h0 : ¬ n < i + s.Weight := by
        have := hmin 0 (Nat.succ_pos k)
        simp [weightBefore_cons_succ, weightBefore_zero] at this
        omega
      have hk2 : k < rest.length := by simpa using hk
      have hgt2 : n < (i + s.Weight) + weightBefore rest (k + 1) := by
        rw [weightBefore_cons_succ] at hgt; omega
      have hmin2 : ∀ j, j < k → (i + s.Weight) + weightBefore rest (j + 1) ≤ n := by
        intro j hj
        have := hmin (j + 1) (Nat.succ_lt_succ hj)
        rw [weightBefore_cons_succ] at this; omega
      simp [SoundCollection.walk, h0, ih (i + s.Weight) k hk2 hgt2 hmin2]

theorem walk_none (n : Int) (l : List Sound) :
    ∀ (i : Int), (∀ j, j < l.length → i + weightBefore l (j + 1) ≤ n) →
      SoundCollection.walk n i l = none := by
  induction l with
  | nil => intro i _; rfl
  | cons s rest ih =>
    intro i h
    have h0 : ¬ n < i + s.Weight := by
      have := h 0 (by simp)
      simp [weightBefore_cons_succ, weightBefore_zero] at this
      omega
    have h2 : ∀ j, j < rest.length → (i + s.Weight) + weightBefore rest (j + 1) ≤ n := by
      intro j hj
      have := h (j + 1) (by simpa using hj)
      rw [weightBefore_cons_succ] at this; omega
    simp [SoundCollection.walk, h0, ih (i + s.Weight) h2]

/-- Claim C5: `SoundCollection.Random` as a function of the draw.  When `k` is the
smallest position whose cumulative weight `Weight_0 + ... + Weight_k` exceeds the draw
`n`, the walk returns the clip at position `k`; and for a draw `n` in
`[0, soundRange)` the method itself, fed `n`, returns that clip without panicking. -/
theorem Random_returns_first_exceeding (s : SoundCollection) (n : Int) (k : Nat)
    (hn : 0 ≤ n ∧ n < s.soundRange)
    (hk : k < s.Sounds.length)
    (hgt : n < weightBefore s.Sounds (k + 1))
    (hmin : ∀ j, j < k → weightBefore s.Sounds (j + 1) ≤ n) :
    s.RandomAt n = s.Sounds[k]? ∧
      s.Random n.toNat = .ok s.Sounds[k]? := by
  have h1 : s.RandomAt n = s.Sounds[k]? := by
    unfold SoundCollection.RandomAt
    exact walk_first n s.Sounds 0 k hk (by simpa using hgt) (by simpa using hmin)
  refine ⟨h1, ?_⟩
  have hpos : ¬ s.soundRange ≤ 0 := by omega
  have hmod : ((n.toNat : Int)) % s.soundRange = n := by
    rw [Int.toNat_of_nonneg hn.1]
    exact Int.emod_eq_of_lt hn.1 hn.2
  simp only [SoundCollection.Random, randomRange, sub_zero, if_neg hpos, add_zero, hmod, h1]

theorem Random_returns_first_exceeding_witness :
    exLoaded.RandomAt 1200 =
        some { Name := "reverb", Weight := 800, PartDelay := 250, buffer := [[7]] } ∧
      exLoaded.Random 1200 =
        .ok (some { Name := "reverb", Weight := 800, PartDelay := 250, buffer := [[7]] }) :=
  Random_returns_first_exceeding exLoaded 1200 1 (by decide) (by decide) (by decide)
    (by decide)

/-! ## Loading a collection, and the clip of a built play -/

theorem totalWeight_cons (s : Sound) (l : List Sound) :
    totalWeight (s :: l) = s.Weight + totalWeight l := by
  simp [totalWeight]

theorem walk_mem (n : Int) (l : List Sound) :
    ∀ (i : Int) (s : Sound), SoundCollection.walk n i l = some s → s ∈ l := by
  induction l with
  | nil => intro i s h; simp [SoundCollection.walk] at h
  | cons x rest ih =>
    intro i s h
    simp only [SoundCollection.walk] at h
    split at h
    · simp only [Option.some.injEq] at h; simp [h]
    · exact List.mem_cons_of_mem _ (ih _ _ h)

theorem walk_some (n : Int) (l : List Sound) :
    ∀ (i : Int), i ≤ n → n < i + totalWeight l →
      ∃ s, s ∈ l ∧ SoundCollection.walk n i l = some s := by
  induction l with
  | nil => intro i hi h; simp [totalWeight] at h; omega
  | cons x rest ih =>
    intro i hi h
    by_cases hx : n < i + x.Weight
    · exact ⟨x, by simp, by simp [SoundCollection.walk, hx]⟩
    · have h2 : n < (i + x.Weight) + totalWeight rest := by
        rw [totalWeight_cons] at h; omega
      obtain ⟨s, hs, hw⟩ := ih _ (by omega) h2
      exact ⟨s, List.mem_cons_of_mem _ hs, by simp [SoundCollection.walk, hx, hw]⟩

theorem totalWeight_pos (l : List Sound) (hne : l ≠ []) (hpos : ∀ s ∈ l, 0 < s.Weight) :
    0 < totalWeight l := by
  induction l with
  | nil => exact absurd rfl hne
  | cons x rest ih =>
    rw [totalWeight_cons]
    have hx := hpos x (by simp)
    by_cases hr : rest = []
    · subst hr; simpa [totalWeight] using hx
    · have := ih hr (fun s hs => hpos s (List.mem_cons_of_mem _ hs))
      omega

theorem weightBefore_nonneg (l : List Sound) (hpos : ∀ s ∈ l, 0 < s.Weight) (k : Nat) :
    0 ≤ weightBefore l k := by
  induction l generalizing k with
  | nil => simp [weightBefore]
  | cons x rest ih =>
    cases k with
    | zero => simp [weightBefore]
    | succ k =>
      rw [weightBefore_cons_succ]
      have hx := hpos x (by simp)
      have := ih (fun s hs => hpos s (List.mem_cons_of_mem _ hs)) k
      omega

/-- The counter of the loop of `Sound.Load` never runs out before the file does: any
two counters that are at least the number of unread bytes give the same result. -/
theorem Sound_Load_loop_counter (f1 : Nat) :
    ∀ (f2 : Nat) (rest : List Byte) (buf : List Frame),
      rest.length ≤ f1 → rest.length ≤ f2 →
      Sound.Load.loop f1 rest buf = Sound.Load.loop f2 rest buf := by
  induction f1 with
  | zero =>
    intro f2 rest buf h1 _
    have hr : rest = [] := List.length_eq_zero.mp (Nat.le_zero.mp h1)
    subst hr
    cases f2 <;> rfl
  | succ f1 ih =>
    intro f2 rest buf h1 h2
    match rest, h1, h2 with
    | [], _, _ => cases f2 <;> rfl
    | [_], _, h2 =>
      obtain ⟨f, rfl⟩ : ∃ f, f2 = f + 1 := ⟨f2 - 1, by simp at h2; omega⟩
      rfl
    | b0 :: b1 :: rest, h1, h2 =>
      obtain ⟨f, rfl⟩ : ∃ f, f2 = f + 1 := ⟨f2 - 1, by simp at h2; omega⟩
      simp only [Sound.Load.loop]
      split
      · rfl
      · split
        · rfl
        · apply ih
          · simp only [List.length_drop, List.length_cons] at h1 ⊢; omega
          · simp only [List.length_drop, List.length_cons] at h2 ⊢; omega

theorem Sound_Load_Weight (fs : String → Option (List Byte)) (s s' : Sound)
    (c : SoundCollection) (e : Option Error) (h : Sound.Load fs s c = .ok (e, s')) :
    s'.Weight = s.Weight := by
  unfold Sound.Load at h
  simp only at h
  split at h
  · simp only [Except.ok.injEq, Prod.mk.injEq] at h; rw [← h.2]
  · split at h
    · exact absurd h (by simp)
    · simp only [Except.ok.injEq, Prod.mk.injEq] at h; rw [← h.2]

theorem Load_loop_weights (fs : String → Option (List Byte)) (sc : SoundCollection)
    (l : List Sound) :
    ∀ (r : Int) (l' : List Sound) (r' : Int),
      SoundCollection.Load.loop fs sc l r = .ok (l', r') →
      l'.map Sound.Weight = l.map Sound.Weight ∧ r' = r + totalWeight l := by
  induction l with
  | nil =>
    intro r l' r' h
    simp only [SoundCollection.Load.loop, Except.ok.injEq, Prod.mk.injEq] at h
    simp [← h.1, ← h.2, totalWeight]
  | cons x rest ih =>
    intro r l' r' h
    simp only [SoundCollection.Load.loop] at h
    split at h
    · exact absurd h (by simp)
    · rename_i e x' hx
      split at h
      · exact absurd h (by simp)
      · rename_i rest' r'' hrest
        simp only [Except.ok.injEq, Prod.mk.injEq] at h
        obtain ⟨h1, h2⟩ := ih _ _ _ hrest
        have hw := Sound_Load_Weight fs x x' sc e hx
        rw [← h.1, ← h.2, h2, totalWeight_cons]
        simp [h1, hw]
        omega

theorem Load_fields (fs : String → Option (List Byte)) (sc sc' : SoundCollection)
    (h : sc.Load fs = .ok sc') :
    sc'.Sounds.map Sound.Weight = sc.Sounds.map Sound.Weight ∧
      sc'.soundRange = sc.soundRange + totalWeight sc.Sounds ∧
      sc'.ChainWith = sc.ChainWith := by
  unfold SoundCollection.Load at h
  split at h
  · exact absurd h (by simp)
  · rename_i l' r' hl
    simp only [Except.ok.injEq] at h
    obtain ⟨h1, h2⟩ := Load_loop_weights fs sc _ _ _ _ hl
    rw [← h]
    exact ⟨h1, h2, rfl⟩

theorem Random_ok (s : SoundCollection) (r : Nat) (h : 0 < s.soundRange) :
    s.Random r = .ok (s.RandomAt ((r : Int) % s.soundRange)) ∧
      0 ≤ (r : Int) % s.soundRange ∧ (r : Int) % s.soundRange < s.soundRange := by
  have hpos : ¬ s.soundRange ≤ 0 := by omega
  refine ⟨?_, Int.emod_nonneg _ (by omega), Int.emod_lt_of_pos _ h⟩
  simp only [SoundCollection.Random, randomRange, sub_zero, if_neg hpos, add_zero]

/-- Claim C6: a built request's clip is never nil.  After one `Load` of a freshly
constructed collection (`soundRange` 0) with at least one clip and only positive
weights, `soundRange` is the sum of the clip weights and positive, every draw in
`[0, soundRange)` makes the walk return one of the collection's clips, `Random` never
returns nil, and `createPlay` without an explicit clip builds a play whose `Sound` is
one of the collection's clips. -/
theorem Load_then_Random_never_nil (fs : String → Option (List Byte))
    (sc sc' : SoundCollection)
    (hfresh : sc.soundRange = 0) (hne : sc.Sounds ≠ [])
    (hpos : ∀ s ∈ sc.Sounds, 0 < s.Weight) (hload : sc.Load fs = .ok sc') :
    sc'.soundRange = totalWeight sc'.Sounds ∧
      totalWeight sc'.Sounds = totalWeight sc.Sounds ∧
      0 < sc'.soundRange ∧
      (∀ n : Int, 0 ≤ n → n < sc'.soundRange →
        ∃ s, s ∈ sc'.Sounds ∧ sc'.RandomAt n = some s) ∧
      (∀ r : Nat, ∃ s, s ∈ sc'.Sounds ∧ sc'.Random r = .ok (some s)) ∧
      (∀ (d : Discord) (user : User) (guild : Guild) (channel : Channel) (r1 r2 : Nat),
        getCurrentVoiceChannel d user guild = some channel →
        (∀ chain, sc'.ChainWith = some chain → 0 < chain.soundRange) →
        ∃ play s, createPlay d user guild sc' none r1 r2 = .ok (some play) ∧
          play.Sound = some s ∧ s ∈ sc'.Sounds) := by
  obtain ⟨hw, hr, _⟩ := Load_fields fs sc sc' hload
  have htot : totalWeight sc'.Sounds = totalWeight sc.Sounds := by
    simp only [totalWeight, hw]
  have hrange : sc'.soundRange = totalWeight sc'.Sounds := by
    rw [hr, hfresh, htot]; simp
  have hgt : 0 < sc'.soundRange := by
    rw [hrange, htot]; exact totalWeight_pos _ hne hpos
  have hat : ∀ n : Int, 0 ≤ n → n < sc'.soundRange →
      ∃ s, s ∈ sc'.Sounds ∧ sc'.RandomAt n = some s := by
    intro n h0 h1
    exact walk_some n sc'.Sounds 0 h0 (by rw [← hrange]; simpa using h1)
  have hrand : ∀ r : Nat, ∃ s, s ∈ sc'.Sounds ∧ sc'.Random r = .ok (some s) := by
    intro r
    obtain ⟨h1, h2, h3⟩ := Random_ok sc' r hgt
    obtain ⟨s, hs, hs2⟩ := hat _ h2 h3
    exact ⟨s, hs, by rw [h1, hs2]⟩
  refine ⟨hrange, htot, hgt, hat, hrand, ?_⟩
  intro d user guild channel r1 r2 hch hchain
  obtain ⟨s, hs, hs2⟩ := hrand r1
  cases hc : sc'.ChainWith with
  | none =>
    refine ⟨.mk guild.ID channel.ID user.ID (some s) none false, s, ?_, rfl, hs⟩
    simp only [createPlay, hch, hs2, hc]
  | some chain =>
    obtain ⟨h1, _, _⟩ := Random_ok chain r2 (hchain chain hc)
    refine ⟨.mk guild.ID channel.ID user.ID (some s)
      (some (.mk guild.ID channel.ID user.ID (chain.RandomAt ((r2 : Int) % chain.soundRange))
        none false)) false, s, ?_, rfl, hs⟩
    simp only [createPlay, hch, hs2, hc, h1]

theorem Load_then_Random_never_nil_witness :
    exFresh.Load exFiles = .ok exLoaded ∧ exLoaded.soundRange = totalWeight exLoaded.Sounds ∧
      0 < exLoaded.soundRange ∧
      ∃ s, s ∈ exLoaded.Sounds ∧ exLoaded.Random 1200 = .ok (some s) :=
  have h := Load_then_Random_never_nil exFiles exFresh exLoaded rfl (by decide) (by decide) rfl
  ⟨rfl, h.1, h.2.2.1, h.2.2.2.2.1 1200⟩

/-! ## Selection frequencies -/

/-- With positive weights and pairwise distinct clips, the walk started at `i ≤ n`
returns the clip at position `k` exactly for the draws in the `k`-th weight band. -/
theorem walk_eq_iff (n : Int) (l : List Sound) :
    ∀ (i : Int) (k : Nat), i ≤ n → k < l.length → (∀ s ∈ l, 0 < s.Weight) → l.Nodup →
      (SoundCollection.walk n i l = l[k]? ↔
        (i + weightBefore l k ≤ n ∧ n < i + weightBefore l (k + 1))) := by
  induction l with
  | nil => intro i k _ hk; simp at hk
  | cons x rest ih =>
    intro i k hi hk hpos hnd
    have hx := hpos x (by simp)
    have hposr : ∀ s ∈ rest, 0 < s.Weight := fun s hs => hpos s (List.mem_cons_of_mem _ hs)
    have hndr : rest.Nodup := (List.nodup_cons.mp hnd).2
    have hxr : x ∉ rest := (List.nodup_cons.mp hnd).1
    cases k with
    | zero =>
      simp only [List.getElem?_cons_zero, weightBefore_zero, weightBefore_cons_succ, add_zero]
      by_cases h : n < i + x.Weight
      · simp [SoundCollection.walk, h, hi]
      · simp only [SoundCollection.walk, h, if_false, and_false, iff_false]
        intro hw
        exact hxr (walk_mem _ _ _ _ hw)
    | succ k =>
      have hk2 : k < rest.length := by simpa using hk
      simp only [List.getElem?_cons_succ, weightBefore_cons_succ]
      by_cases h : n < i + x.Weight
      · have hnn := weightBefore_nonneg rest hposr k
        have hne : ¬ (some x = rest[k]?) := by
          intro e
          have : x ∈ rest := by
            rw [List.getElem?_eq_getElem hk2] at e
            simp only [Option.some.injEq] at e
            rw [e]; exact List.getElem_mem hk2
          exact hxr this
        simp only [SoundCollection.walk, h, if_true, hne, false_iff, not_and, not_lt]
        intro h1; omega
      · simp only [SoundCollection.walk, h, if_false]
        rw [ih (i + x.Weight) k (by omega) hk2 hposr hndr]
        constructor <;> intro ⟨a, b⟩ <;> constructor <;> omega

theorem weightBefore_succ_le_total (l : List Sound) (hpos : ∀ s ∈ l, 0 < s.Weight) :
    ∀ k, k < l.length → weightBefore l (k + 1) ≤ totalWeight l := by
  induction l with
  | nil => intro k hk; simp at hk
  | cons x rest ih =>
    intro k hk
    rw [weightBefore_cons_succ, totalWeight_cons]
    have hposr : ∀ s ∈ rest, 0 < s.Weight := fun s hs => hpos s (List.mem_cons_of_mem _ hs)
    cases k with
    | zero =>
      rw [weightBefore_zero]
      have : 0 ≤ totalWeight rest := by
        have := weightBefore_nonneg rest hposr rest.length
        simpa [weightBefore, totalWeight] using this
      omega
    | succ k =>
      have := ih hposr k (by simpa using hk)
      omega

theorem weightBefore_succ (l : List Sound) :
    ∀ (k : Nat) (hk : k < l.length),
      weightBefore l (k + 1) = weightBefore l k + (l.get ⟨k, hk⟩).Weight := by
  induction l with
  | nil => intro k hk; simp at hk
  | cons x rest ih =>
    intro k hk
    cases k with
    | zero => simp [weightBefore]
    | succ k =>
      rw [weightBefore_cons_succ, weightBefore_cons_succ, ih k (by simpa using hk)]
      simp only [List.get_eq_getElem, List.getElem_cons_succ]
      omega

/-- Claim C7: selection is proportional to weight, exactly.  In a collection of
pairwise distinct clips with positive weights whose `soundRange` is the sum of the
weights, the draws in `[0, soundRange)` that make `Random` return the clip at position
`k` number exactly `Weight_k`. -/
theorem Random_frequency_eq_Weight (s : SoundCollection) (k : Nat)
    (hk : k < s.Sounds.length)
    (hpos : ∀ x ∈ s.Sounds, 0 < x.Weight)
    (hrange : s.soundRange = totalWeight s.Sounds)
    (hnd : s.Sounds.Nodup) :
    (((Finset.Ico (0 : Int) s.soundRange).filter
        (fun n => s.RandomAt n = s.Sounds[k]?)).card : Int) =
      (s.Sounds.get ⟨k, hk⟩).Weight := by
  have hlo := weightBefore_nonneg s.Sounds hpos k
  have hhi := weightBefore_succ_le_total s.Sounds hpos k hk
  have hstep := weightBefore_succ s.Sounds k hk
  have hw := hpos _ (List.get_mem s.Sounds k hk)
  have hset : (Finset.Ico (0 : Int) s.soundRange).filter
      (fun n => s.RandomAt n = s.Sounds[k]?) =
      Finset.Ico (weightBefore s.Sounds k) (weightBefore s.Sounds (k + 1)) := by
    ext n
    simp only [Finset.mem_filter, Finset.mem_Ico]
    constructor
    · rintro ⟨⟨h0, _⟩, h⟩
      have := (walk_eq_iff n s.Sounds 0 k h0 hk hpos hnd).mp h
      simpa using this
    · rintro ⟨h1, h2⟩
      have h0 : 0 ≤ n := by omega
      refine ⟨⟨h0, by omega⟩, ?_⟩
      exact (walk_eq_iff n s.Sounds 0 k h0 hk hpos hnd).mpr (by simpa using ⟨h1, h2⟩)
  rw [hset, Int.card_Ico, hstep]
  rw [Int.toNat_of_nonneg (by omega)]
  omega

theorem Random_frequency_eq_Weight_witness :
    (((Finset.Ico (0 : Int) exLoaded.soundRange).filter
        (fun n => exLoaded.RandomAt n = exLoaded.Sounds[1]?)).card : Int) = 800 :=
  Random_frequency_eq_Weight exLoaded 1 (by decide) (by decide) rfl (by decide)

/-! ## Building a play: `createPlay` -/

/-- The clip and the forced flag `createPlay` settles on before chaining. -/
theorem createPlay_inv (d : Discord) (user : User) (guild : Guild) (coll : SoundCollection)
    (sound : Option Sound) (r1 r2 : Nat) (play : Play)
    (h : createPlay d user guild coll sound r1 r2 = .ok (some play)) :
    ∃ channel ps pf, getCurrentVoiceChannel d user guild = some channel ∧
      ((∃ s, sound = some s ∧ ps = some s ∧ pf = true) ∨
        (sound = none ∧ coll.Random r1 = .ok ps ∧ pf = false)) ∧
      ((coll.ChainWith = none ∧ play = .mk guild.ID channel.ID user.ID ps none pf) ∨
        (∃ chain s, coll.ChainWith = some chain ∧ chain.Random r2 = .ok s ∧
          play = .mk guild.ID channel.ID user.ID ps
            (some (.mk guild.ID channel.ID user.ID s none pf)) pf)) := by
  unfold createPlay at h
  split at h
  · exact absurd h (by simp)
  · rename_i channel hch
    simp only at h
    split at h
    · exact absurd h (by simp)
    · rename_i ps pf hp
      have hpick : (∃ s, sound = some s ∧ ps = some s ∧ pf = true) ∨
          (sound = none ∧ coll.Random r1 = .ok ps ∧ pf = false) := by
        cases sound with
        | some s =>
          simp only [Except.ok.injEq, Prod.mk.injEq] at hp
          exact Or.inl ⟨s, rfl, hp.1.symm, hp.2.symm⟩
        | none =>
          simp only at hp
          split at hp
          · exact absurd hp (by simp)
          · rename_i s hs
            simp only [Except.ok.injEq, Prod.mk.injEq] at hp
            exact Or.inr ⟨rfl, by rw [hs, hp.1], hp.2.symm⟩
      refine ⟨channel, ps, pf, hch, hpick, ?_⟩
      split at h
      · rename_i hc
        simp only [Except.ok.injEq, Option.some.injEq] at h
        exact Or.inl ⟨hc, h.symm⟩
      · rename_i chain hc
        split at h
        · exact absurd h (by simp)
        · rename_i s hs
          simp only [Except.ok.injEq, Option.some.injEq] at h
          exact Or.inr ⟨chain, s, hc, hs, h.symm⟩

/-- Claim C8: clip resolution in `createPlay`.  For a requester whose voice channel
resolves, and with positive `soundRange` wherever a draw is taken, `createPlay` builds
a play for the guild, the resolved channel and the requester; with an explicit clip
its `Sound` is that clip and `Forced` is true, without one its `Sound` is the
collection's random pick and `Forced` is false; so `Forced` holds exactly when an
explicit clip was given. -/
theorem createPlay_clip_resolution (d : Discord) (user : User) (guild : Guild)
    (coll : SoundCollection) (sound : Option Sound) (r1 r2 : Nat) (channel : Channel)
    (hch : getCurrentVoiceChannel d user guild = some channel)
    (hr : sound = none → 0 < coll.soundRange)
    (hc : ∀ chain, coll.ChainWith = some chain → 0 < chain.soundRange) :
    ∃ play, createPlay d user guild coll sound r1 r2 = .ok (some play) ∧
      play.GuildID = guild.ID ∧ play.ChannelID = channel.ID ∧ play.UserID = user.ID ∧
      (∀ s, sound = some s → play.Sound = some s ∧ play.Forced = true) ∧
      (sound = none → coll.Random r1 = .ok play.Sound ∧ play.Forced = false) ∧
      (play.Forced = true ↔ sound ≠ none) := by
  cases sound with
  | some s =>
    cases hcw : coll.ChainWith with
    | none =>
      refine ⟨.mk guild.ID channel.ID user.ID (some s) none true, ?_, rfl, rfl, rfl, ?_, ?_, ?_⟩
      · simp only [createPlay, hch, hcw]
      · intro s' hs'; simp only [Option.some.injEq] at hs'; subst hs'; exact ⟨rfl, rfl⟩
      · intro h; exact absurd h (by simp)
      · simp [Play.Forced]
    | some chain =>
      obtain ⟨h1, _, _⟩ := Random_ok chain r2 (hc chain hcw)
      refine ⟨.mk guild.ID channel.ID user.ID (some s)
        (some (.mk guild.ID channel.ID user.ID (chain.RandomAt ((r2 : Int) % chain.soundRange))
          none true)) true, ?_, rfl, rfl, rfl, ?_, ?_, ?_⟩
      · simp only [createPlay, hch, hcw, h1]
      · intro s' hs'; simp only [Option.some.injEq] at hs'; subst hs'; exact ⟨rfl, rfl⟩
      · intro h; exact absurd h (by simp)
      · simp [Play.Forced]
  | none =>
    obtain ⟨g1, _, _⟩ := Random_ok coll r1 (hr rfl)
    cases hcw : coll.ChainWith with
    | none =>
      refine ⟨.mk guild.ID channel.ID user.ID (coll.RandomAt ((r1 : Int) % coll.soundRange))
        none false, ?_, rfl, rfl, rfl, ?_, ?_, ?_⟩
      · simp only [createPlay, hch, hcw, g1]
      · intro s' hs'; exact absurd hs' (by simp)
      · intro _; exact ⟨g1, rfl⟩
      · simp [Play.Forced]
    | some chain =>
      obtain ⟨h1, _, _⟩ := Random_ok chain r2 (hc chain hcw)
      refine ⟨.mk guild.ID channel.ID user.ID (coll.RandomAt ((r1 : Int) % coll.soundRange))
        (some (.mk guild.ID channel.ID user.ID (chain.RandomAt ((r2 : Int) % chain.soundRange))
          none false)) false, ?_, rfl, rfl, rfl, ?_, ?_, ?_⟩
      · simp only [createPlay, hch, hcw, g1, h1]
      · intro s' hs'; exact absurd hs' (by simp)
      · intro _; exact ⟨g1, rfl⟩
      · simp [Play.Forced]

theorem createPlay_clip_resolution_witness :
    ∃ play, createPlay exDiscord exUser exGuild exChained none 1200 3 = .ok (some play) ∧
      play.GuildID = "G" ∧ play.ChannelID = "c1" ∧ play.UserID = "u1" ∧
      (∀ s, (none : Option Sound) = some s → play.Sound = some s ∧ play.Forced = true) ∧
      ((none : Option Sound) = none →
        exChained.Random 1200 = .ok play.Sound ∧ play.Forced = false) ∧
      (play.Forced = true ↔ (none : Option Sound) ≠ none) :=
  createPlay_clip_resolution exDiscord exUser exGuild exChained none 1200 3 { ID := "c1" } rfl
    (fun _ => by decide)
    (fun chain h => by
      have hc : chain = exMiddle := (Option.some.inj h).symm
      subst hc
      decide)

/-- Claim C9: chaining in `createPlay`.  A built play has a `Next` exactly when the
collection has a `ChainWith` target; that `Next` copies guild, channel, requester and
`Forced` from its parent, its `Sound` is a pick from the `ChainWith` collection, and
its own `Next` is nil even if the `ChainWith` collection is chained itself. -/
theorem createPlay_chains_one_hop (d : Discord) (user : User) (guild : Guild)
    (coll : SoundCollection) (sound : Option Sound) (r1 r2 : Nat) (play : Play)
    (h : createPlay d user guild coll sound r1 r2 = .ok (some play)) :
    (play.Next ≠ none ↔ coll.ChainWith ≠ none) ∧
      ∀ next, play.Next = some next →
        next.GuildID = play.GuildID ∧ next.ChannelID = play.ChannelID ∧
        next.UserID = play.UserID ∧ next.Forced = play.Forced ∧
        (∃ chain, coll.ChainWith = some chain ∧ chain.Random r2 = .ok next.Sound) ∧
        next.Next = none := by
  obtain ⟨channel, ps, pf, _, _, hshape⟩ := createPlay_inv d user guild coll sound r1 r2 play h
  rcases hshape with ⟨hc, hp⟩ | ⟨chain, s, hc, hs, hp⟩
  · subst hp
    refine ⟨by simp [Play.Next, hc], ?_⟩
    intro next hn
    simp [Play.Next] at hn
  · subst hp
    refine ⟨by simp [Play.Next, hc], ?_⟩
    intro next hn
    simp only [Play.Next, Option.some.injEq] at hn
    subst hn
    exact ⟨rfl, rfl, rfl, rfl, ⟨chain, hc, hs⟩, rfl⟩

theorem createPlay_chains_one_hop_witness :
    exMiddle.ChainWith ≠ none ∧
      createPlay exDiscord exUser exGuild exChained none 500 3 = .ok (some exParent) ∧
      (exParent.Next ≠ none ↔ exChained.ChainWith ≠ none) ∧
      ∀ next, exParent.Next = some next →
        next.GuildID = exParent.GuildID ∧ next.ChannelID = exParent.ChannelID ∧
        next.UserID = exParent.UserID ∧ next.Forced = exParent.Forced ∧
        (∃ chain, exChained.ChainWith = some chain ∧ chain.Random 3 = .ok next.Sound) ∧
        next.Next = none :=
  ⟨by simp [exMiddle, SoundCollection.ChainWith], rfl,
    createPlay_chains_one_hop exDiscord exUser exGuild exChained none 500 3 exParent rfl⟩

/-- Every play `createPlay` builds whose clips are resolved is well built for its
guild. -/
theorem createPlay_wellBuilt (d : Discord) (user : User) (guild : Guild)
    (coll : SoundCollection) (sound : Option Sound) (r1 r2 : Nat) (play : Play)
    (h : createPlay d user guild coll sound r1 r2 = .ok (some play))
    (hs : play.Sound.isSome = true)
    (hn : ∀ n, play.Next = some n → n.Sound.isSome = true) :
    play.wellBuilt guild.ID = true := by
  obtain ⟨channel, ps, pf, _, _, hshape⟩ := createPlay_inv d user guild coll sound r1 r2 play h
  rcases hshape with ⟨_, hp⟩ | ⟨chain, s, _, _, hp⟩
  · subst hp
    simpa [Play.wellBuilt, Play.GuildID, Play.Sound, Play.Next] using hs
  · subst hp
    have h2 := hn _ rfl
    simp only [Play.Sound] at hs h2
    simp [Play.wellBuilt, Play.GuildID, Play.Sound, Play.Next, hs, h2]

/-! ## The worker never adds to a queue -/

theorem Shrinks_refl (w : World) : World.Shrinks w w := by
  intro k q' h; exact ⟨q', [], h, rfl, rfl⟩

theorem Shrinks_trans {a b c : World} (h1 : World.Shrinks a b) (h2 : World.Shrinks b c) :
    World.Shrinks a c := by
  intro k q' h
  obtain ⟨q, pre, hq, hc, hb⟩ := h2 k q' h
  obtain ⟨q0, pre0, hq0, hc0, hb0⟩ := h1 k q hq
  exact ⟨q0, pre0 ++ pre, hq0, hc.trans hc0, by rw [hb0, hb, List.append_assoc]⟩

theorem Shrinks_emit (w : World) (es : List Event) : World.Shrinks w (w.emit es) := by
  intro k q' h; exact ⟨q', [], h, rfl, rfl⟩

theorem Shrinks_delete (w : World) (g : String) : World.Shrinks w (w.delete g) := by
  intro k q' h
  simp only [World.delete] at h
  split at h
  · exact absurd h (by simp)
  · exact ⟨q', [], h, rfl, rfl⟩

theorem Shrinks_pop (w : World) (g : String) (cap : Nat) (x : Play) (xs : List Play)
    (hq : w.queues g = some { cap := cap, buf := x :: xs }) :
    World.Shrinks w (w.set g { cap := cap, buf := xs }) := by
  intro k q' h
  simp only [World.set] at h
  split at h
  · rename_i hk
    simp only [Option.some.injEq] at h
    subst hk
    exact ⟨_, [x], hq, by rw [← h], by rw [← h]; rfl⟩
  · exact ⟨q', [], h, rfl, rfl⟩

theorem Shrinks_join (d : Discord) (p : Play) (vc : Option VoiceConnection) (w : World) :
    World.Shrinks w (playSound.join d p vc w).2 := by
  unfold playSound.join
  split
  · exact Shrinks_refl w
  · simp only
    split <;> exact Shrinks_emit w _

theorem Shrinks_changeChannel (p : Play) (vc : VoiceConnection) (w : World) :
    World.Shrinks w (playSound.changeChannel p vc w).2 := by
  unfold playSound.changeChannel
  split
  · exact Shrinks_emit w _
  · exact Shrinks_refl w

theorem Shrinks_teardown (p : Play) (s : Sound) (w : World) :
    World.Shrinks w (playSound.teardown p s w) :=
  Shrinks_trans (Shrinks_trans (Shrinks_emit w _) (Shrinks_delete _ _)) (Shrinks_emit _ _)

theorem playSound_shrinks (d : Discord) :
    ∀ (fuel : Nat) (p : Play) (vc : Option VoiceConnection) (w : World) (r : PlayResult),
      playSound d fuel p vc w = some (.ok r) → World.Shrinks w r.world := by
  intro fuel
  induction fuel with
  | zero => intro p vc w r h; simp [playSound] at h
  | succ f ih =>
    intro p vc w r h
    have hjoin := Shrinks_join d p vc w
    unfold playSound at h
    split at h
    · rename_i e w1 hj
      simp only [Option.some.injEq, Except.ok.injEq] at h
      rw [hj] at hjoin
      rw [← h]
      exact Shrinks_trans hjoin (Shrinks_delete _ _)
    · rename_i vc1 w1 hj
      rw [hj] at hjoin
      have hcc := Shrinks_changeChannel p vc1 w1
      split at h
      rename_i vc1' w1' hc
      rw [hc] at hcc
      simp only at h hcc
      split at h
      · exact absurd h (by simp)
      · rename_i s hs
        have hw1 : World.Shrinks w ((w1'.emit [.trackSoundStats p, .sleep 32]).emit s.Play) :=
          Shrinks_trans (Shrinks_trans (Shrinks_trans hjoin hcc) (Shrinks_emit _ _))
            (Shrinks_emit _ _)
        split at h
        · exact absurd h (by simp)
        · exact absurd h (by simp)
        · rename_i vc2 w2 hchain
          have hw2 : World.Shrinks w w2 := by
            split at hchain
            · simp only [Option.some.injEq, Except.ok.injEq, Prod.mk.injEq] at hchain
              rw [← hchain.2]; exact hw1
            · split at hchain
              · exact absurd hchain (by simp)
              · exact absurd hchain (by simp)
              · rename_i r1 hr1
                simp only [Option.some.injEq, Except.ok.injEq, Prod.mk.injEq] at hchain
                rw [← hchain.2]
                exact Shrinks_trans hw1 (ih _ _ _ _ hr1)
          split at h
          · rename_i cap x xs hq
            split at h
            · exact absurd h (by simp)
            · exact absurd h (by simp)
            · rename_i r2 hr2
              simp only [Option.some.injEq, Except.ok.injEq] at h
              rw [← h]
              exact Shrinks_trans hw2
                (Shrinks_trans (Shrinks_pop _ _ _ _ _ hq) (ih _ _ _ r2 hr2))
          · simp only [Option.some.injEq, Except.ok.injEq] at h
            rw [← h]
            exact Shrinks_trans hw2 (Shrinks_teardown _ _ _)

/-! ## What a trace shows -/

theorem played_append (a b : List Event) : played (a ++ b) = played a ++ played b := by
  induction a with
  | nil => rfl
  | cons e es ih => cases e <;> simp [played, ih]

theorem sentClipsFrom_open (cur : Option (List Frame)) (es : List Event) :
    sentClipsFrom cur (.speaking true :: es) = sentClipsFrom (some []) es := by
  cases cur <;> rfl

theorem sentClipsFrom_close (acc : List Frame) (es : List Event) :
    sentClipsFrom (some acc) (.speaking false :: es) = acc :: sentClipsFrom none es := rfl

theorem sentClipsFrom_send (acc : List Frame) (f : Frame) (es : List Event) :
    sentClipsFrom (some acc) (.opusSend f :: es) = sentClipsFrom (some (acc ++ [f])) es := rfl

theorem sentClipsFrom_sleep (cur : Option (List Frame)) (ms : Int) (es : List Event) :
    sentClipsFrom cur (.sleep ms :: es) = sentClipsFrom cur es := by
  cases cur <;> rfl

theorem sentClipsFrom_track (cur : Option (List Frame)) (p : Play) (es : List Event) :
    sentClipsFrom cur (.trackSoundStats p :: es) = sentClipsFrom cur es := by
  cases cur <;> rfl

theorem sentClipsFrom_change (cur : Option (List Frame)) (c : String) (es : List Event) :
    sentClipsFrom cur (.changeChannel c :: es) = sentClipsFrom cur es := by
  cases cur <;> rfl

theorem sentClipsFrom_join (cur : Option (List Frame)) (g c : String) (es : List Event) :
    sentClipsFrom cur (.voiceJoin g c :: es) = sentClipsFrom cur es := by
  cases cur <;> rfl

theorem sentClipsFrom_disconnect (cur : Option (List Frame)) (es : List Event) :
    sentClipsFrom cur (.disconnect :: es) = sentClipsFrom cur es := by
  cases cur <;> rfl

theorem sentClipsFrom_frames (fs : List Frame) :
    ∀ (acc : List Frame) (rest : List Event),
      sentClipsFrom (some acc) (fs.map Event.opusSend ++ Event.speaking false :: rest) =
        (acc ++ fs) :: sentClipsFrom none rest := by
  induction fs with
  | nil => intro acc rest; simp [sentClipsFrom_close]
  | cons f fs ih =>
    intro acc rest
    rw [List.map_cons, List.cons_append, sentClipsFrom_send, ih]
    simp

theorem sentClipsFrom_Play (s : Sound) (cur : Option (List Frame)) (rest : List Event) :
    sentClipsFrom cur (s.Play ++ rest) = s.buffer :: sentClipsFrom none rest := by
  have : s.Play ++ rest =
      .speaking true :: (s.buffer.map Event.opusSend ++ Event.speaking false :: rest) := by
    simp [Sound.Play]
  rw [this, sentClipsFrom_open, sentClipsFrom_frames]; simp

theorem played_Play (s : Sound) : played s.Play = [] := by
  simp only [Sound.Play, played_append]
  have : ∀ fs : List Frame, played (fs.map Event.opusSend) = [] := by
    intro fs; induction fs with
    | nil => rfl
    | cons f fs ih => simp [played, ih]
  simp [played, this]

theorem played_clipEvents (p : Play) (s : Sound) (vc : VoiceConnection) :
    played (playSound.clipEvents p s vc) = [p] := by
  unfold playSound.clipEvents
  rw [played_append, played_append, played_Play]
  split <;> simp [played]

theorem sentClipsFrom_clipEvents (p : Play) (s : Sound) (vc : VoiceConnection)
    (rest : List Event) :
    sentClipsFrom none (playSound.clipEvents p s vc ++ rest) =
      s.buffer :: sentClipsFrom none rest := by
  unfold playSound.clipEvents
  split <;>
    simp only [List.append_assoc, List.cons_append, List.nil_append, sentClipsFrom_change,
      sentClipsFrom_sleep, sentClipsFrom_track, sentClipsFrom_Play]

/-! ## One call of `playSound` on an open connection -/

/-- The world after the clip of `p` has been played on the open connection `vc`. -/
theorem playSound_changeChannel_world (p : Play) (s : Sound) (vc : VoiceConnection) (w : World) :
    (((playSound.changeChannel p vc w).2.emit [.trackSoundStats p, .sleep 32]).emit s.Play) =
      w.emit (playSound.clipEvents p s vc) := by
  unfold playSound.changeChannel playSound.clipEvents
  split <;> simp [World.emit]

theorem playSound_done (d : Discord) (f : Nat) (p : Play) (s : Sound) (vc : VoiceConnection)
    (w : World) (hs : p.Sound = some s) (hn : p.Next = none)
    (hq : ∀ cap x xs, w.queues p.GuildID ≠ some { cap := cap, buf := x :: xs }) :
    playSound d (f + 1) p (some vc) w =
      some (.ok { err := none, vc := some (playSound.changeChannel p vc w).1,
                  world := playSound.teardown p s (w.emit (playSound.clipEvents p s vc)) }) := by
  have hq2 : ∀ cap x xs, (w.emit (playSound.clipEvents p s vc)).queues p.GuildID =
      some { cap := cap, buf := x :: xs } → False := hq
  simp only [playSound, playSound.join, hs, hn, playSound_changeChannel_world]

theorem playSound_pop (d : Discord) (f : Nat) (p : Play) (s : Sound) (vc : VoiceConnection)
    (w : World) (cap : Nat) (x : Play) (xs : List Play)
    (hs : p.Sound = some s) (hn : p.Next = none)
    (hq : w.queues p.GuildID = some { cap := cap, buf := x :: xs }) :
    playSound d (f + 1) p (some vc) w =
      match playSound d f x (some (playSound.changeChannel p vc w).1)
          ((w.emit (playSound.clipEvents p s vc)).set p.GuildID { cap := cap, buf := xs }) with
      | none => none
      | some (.error e) => some (.error e)
      | some (.ok r) =>
        some (.ok { err := none, vc := some (r.vc.getD (playSound.changeChannel p vc w).1),
                    world := r.world }) := by
  have hq2 : (w.emit (playSound.clipEvents p s vc)).queues p.GuildID =
      some { cap := cap, buf := x :: xs } := hq
  simp only [playSound, playSound.join, hs, hn, playSound_changeChannel_world, hq2]

theorem playSound_chain (d : Discord) (f : Nat) (p n : Play) (s : Sound) (vc : VoiceConnection)
    (w : World) (r1 : PlayResult)
    (hs : p.Sound = some s) (hn : p.Next = some n)
    (h1 : playSound d f n (some (playSound.changeChannel p vc w).1)
      (w.emit (playSound.clipEvents p s vc)) = some (.ok r1))
    (hq : r1.world.queues p.GuildID = none) :
    playSound d (f + 1) p (some vc) w =
      some (.ok { err := none, vc := some (r1.vc.getD (playSound.changeChannel p vc w).1),
                  world := playSound.teardown p s r1.world }) := by
  simp only [playSound, playSound.join, hs, hn, playSound_changeChannel_world, h1, hq]

/-! ## A worker session drains the queue -/

theorem Plays_append {t1 t2 : List Event} {ps1 ps2 : List Play}
    (h1 : Plays t1 ps1) (h2 : Plays t2 ps2) : Plays (t1 ++ t2) (ps1 ++ ps2) := by
  refine ⟨by rw [played_append, h1.1, h2.1], ?_⟩
  intro rest
  rw [List.append_assoc, h1.2, h2.2, List.map_append, List.append_assoc]

theorem Plays_clip (p : Play) (s : Sound) (vc : VoiceConnection) (hs : p.Sound = some s) :
    Plays (playSound.clipEvents p s vc) [p] := by
  refine ⟨played_clipEvents p s vc, ?_⟩
  intro rest
  rw [sentClipsFrom_clipEvents]
  simp [Play.frames, hs]

theorem Plays_teardown (ms : Int) : Plays [.sleep ms, .disconnect] [] := by
  refine ⟨rfl, ?_⟩
  intro rest
  simp [sentClipsFrom_sleep, sentClipsFrom_disconnect]

theorem wellBuilt_inv (g : String) (p : Play) (h : p.wellBuilt g = true) :
    p.GuildID = g ∧ ∃ s, p.Sound = some s ∧
      (p.Next = none ∨ ∃ n sn, p.Next = some n ∧ n.GuildID = g ∧ n.Sound = some sn ∧
        n.Next = none) := by
  unfold Play.wellBuilt at h
  simp only [Bool.and_eq_true, beq_iff_eq] at h
  obtain ⟨⟨h1, h2⟩, h3⟩ := h
  refine ⟨h1, ?_⟩
  obtain ⟨s, hs⟩ := Option.isSome_iff_exists.mp h2
  refine ⟨s, hs, ?_⟩
  cases hn : p.Next with
  | none => exact Or.inl rfl
  | some n =>
    rw [hn] at h3
    simp only [Bool.and_eq_true, beq_iff_eq, Option.isNone_iff_eq_none] at h3
    obtain ⟨sn, hsn⟩ := Option.isSome_iff_exists.mp h3.1.2
    exact Or.inr ⟨n, sn, rfl, h3.1.1, hsn, h3.2⟩

theorem teardown_session (g : String) (p : Play) (s : Sound) (w w1 : World) (ps : List Play)
    (hg : p.GuildID = g) (hk : ∀ k, k ≠ g → w1.queues k = w.queues k)
    (ht : ∃ t, w1.trace = w.trace ++ t ∧ Plays t ps) :
    Session g w (playSound.teardown p s w1) ps := by
  obtain ⟨t, ht1, ht2⟩ := ht
  subst hg
  refine ⟨?_, ?_, t ++ [.sleep s.PartDelay, .disconnect], ?_, ?_⟩
  · simp [playSound.teardown, World.emit, World.delete]
  · intro k hkg
    simp [playSound.teardown, World.emit, World.delete, hkg, hk k hkg]
  · simp [playSound.teardown, World.emit, World.delete, ht1]
  · simpa using Plays_append ht2 (Plays_teardown s.PartDelay)

/-- A play without follow-up drains the queue, given that a well-built play drains
the tail of the queue. -/
theorem drain_leaf (d : Discord) (g : String) (q : List Play)
    (ih : ∀ x xs, q = x :: xs →
      ∀ (fuel : Nat) (p : Play) (vc : VoiceConnection) (w : World) (cap : Nat),
        p.wellBuilt g = true → w.queues g = some { cap := cap, buf := xs } →
        (∀ y ∈ xs, y.wellBuilt g = true) → 2 * xs.length + 2 ≤ fuel →
        ∃ r, playSound d fuel p (some vc) w = some (.ok r) ∧
          Session g w r.world (p.withNext ++ xs.flatMap Play.withNext))
    (fuel : Nat) (p : Play) (vc : VoiceConnection) (w : World) (cap : Nat)
    (hp : p.wellBuilt g = true) (hn : p.Next = none)
    (hq : w.queues g = some { cap := cap, buf := q })
    (hall : ∀ y ∈ q, y.wellBuilt g = true) (hf : 2 * q.length + 1 ≤ fuel) :
    ∃ r, playSound d fuel p (some vc) w = some (.ok r) ∧
      Session g w r.world (p :: q.flatMap Play.withNext) := by
  obtain ⟨hg, s, hs, _⟩ := wellBuilt_inv g p hp
  obtain ⟨f, rfl⟩ : ∃ f, fuel = f + 1 := ⟨fuel - 1, by omega⟩
  cases q with
  | nil =>
    refine ⟨_, playSound_done d f p s vc w hs hn ?_, ?_⟩
    · intro cap x xs h; rw [hg, hq] at h; simp at h
    · simp only [List.flatMap_nil]
      exact teardown_session g p s w _ [p] hg (fun k _ => rfl)
        ⟨_, rfl, Plays_clip p s vc hs⟩
  | cons x xs =>
    have hx : x.wellBuilt g = true := hall x (by simp)
    have hxs : ∀ y ∈ xs, y.wellBuilt g = true := fun y hy => hall y (List.mem_cons_of_mem _ hy)
    have hq2 : ((w.emit (playSound.clipEvents p s vc)).set p.GuildID
        { cap := cap, buf := xs }).queues g = some { cap := cap, buf := xs } := by
      simp [World.set, hg]
    obtain ⟨r2, hr2, h1, h2, t, ht1, ht2⟩ := ih x xs rfl f x (playSound.changeChannel p vc w).1
      _ cap hx hq2 hxs (by simp only [List.length_cons] at hf; omega)
    refine ⟨{ err := none, vc := some (r2.vc.getD (playSound.changeChannel p vc w).1),
              world := r2.world }, ?_, ?_⟩
    · rw [playSound_pop d f p s vc w cap x xs hs hn (by rw [hg]; exact hq), hr2]
    · refine ⟨h1, ?_, playSound.clipEvents p s vc ++ t, ?_, ?_⟩
      · intro k hk
        rw [h2 k hk]
        simp [World.set, World.emit, hg, hk]
      · simp only [ht1]
        simp [World.set, World.emit]
      · have := Plays_append (Plays_clip p s vc hs) ht2
        simpa using this

/-- A well-built play drains the queue, given that its follow-up does. -/
theorem drain_chain (d : Discord) (g : String) (q : List Play)
    (leaf : ∀ (fuel : Nat) (p : Play) (vc : VoiceConnection) (w : World) (cap : Nat),
      p.wellBuilt g = true → p.Next = none → w.queues g = some { cap := cap, buf := q } →
      (∀ y ∈ q, y.wellBuilt g = true) → 2 * q.length + 1 ≤ fuel →
      ∃ r, playSound d fuel p (some vc) w = some (.ok r) ∧
        Session g w r.world (p :: q.flatMap Play.withNext))
    (fuel : Nat) (p : Play) (vc : VoiceConnection) (w : World) (cap : Nat)
    (hp : p.wellBuilt g = true)
    (hq : w.queues g = some { cap := cap, buf := q })
    (hall : ∀ y ∈ q, y.wellBuilt g = true) (hf : 2 * q.length + 2 ≤ fuel) :
    ∃ r, playSound d fuel p (some vc) w = some (.ok r) ∧
      Session g w r.world (p.withNext ++ q.flatMap Play.withNext) := by
  obtain ⟨hg, s, hs, hnext⟩ := wellBuilt_inv g p hp
  rcases hnext with hn | ⟨n, sn, hn, hng, hns, hnn⟩
  · have := leaf fuel p vc w cap hp hn hq hall (by omega)
    simpa [Play.withNext, hn] using this
  · obtain ⟨f, rfl⟩ : ∃ f, fuel = f + 1 := ⟨fuel - 1, by omega⟩
    have hnb : n.wellBuilt g = true := by
      simp [Play.wellBuilt, hng, hns, hnn]
    obtain ⟨r1, hr1, h1, h2, t, ht1, ht2⟩ := leaf f n (playSound.changeChannel p vc w).1
      (w.emit (playSound.clipEvents p s vc)) cap hnb hnn hq hall (by omega)
    refine ⟨_, playSound_chain d f p n s vc w r1 hs hn hr1 (by rw [hg]; exact h1), ?_⟩
    have hps : p.withNext = [p, n] := by simp [Play.withNext, hn]
    rw [hps]
    refine teardown_session g p s w r1.world _ hg ?_ ⟨playSound.clipEvents p s vc ++ t, ?_, ?_⟩
    · intro k hk; rw [h2 k hk]; rfl
    · rw [ht1]; simp [World.emit]
    · have := Plays_append (Plays_clip p s vc hs) ht2
      simpa using this

/-- A well-built play on an open connection plays itself, its follow-up and then the
whole queue of its guild, provided the recursion bound allows two calls per request. -/
theorem playSound_drains (d : Discord) (g : String) (q : List Play) :
    ∀ (fuel : Nat) (p : Play) (vc : VoiceConnection) (w : World) (cap : Nat),
      p.wellBuilt g = true → w.queues g = some { cap := cap, buf := q } →
      (∀ y ∈ q, y.wellBuilt g = true) → 2 * q.length + 2 ≤ fuel →
      ∃ r, playSound d fuel p (some vc) w = some (.ok r) ∧
        Session g w r.world (p.withNext ++ q.flatMap Play.withNext) := by
  induction q with
  | nil =>
    exact drain_chain d g [] (drain_leaf d g [] (fun x xs h => by simp at h))
  | cons x xs ih =>
    refine drain_chain d g (x :: xs) (drain_leaf d g (x :: xs) ?_)
    intro y ys h
    simp only [List.cons.injEq] at h
    obtain ⟨_, rfl⟩ := h
    exact ih


/-! ## Play order -/

theorem playSound_join_ok (d : Discord) (f : Nat) (p : Play) (w : World)
    (h : d.ChannelVoiceJoin p.GuildID p.ChannelID = none) :
    playSound d (f + 1) p none w =
      playSound d (f + 1) p (some { GuildID := p.GuildID, ChannelID := p.ChannelID })
        (w.emit [.voiceJoin p.GuildID p.ChannelID]) := by
  simp only [playSound, playSound.join, h]

/-- Requests offered while the guild is Active fill its queue up to the capacity, in
arrival order, and the rest are dropped. -/
theorem registerAll_fills (maxQ : Nat) (g : String) (l : List Play) :
    ∀ (w : World) (b : List Play), w.queues g = some { cap := maxQ, buf := b } →
      b.length ≤ maxQ →
      ∃ w1, registerAll maxQ g l w = .ok w1 ∧
        w1.queues g = some { cap := maxQ, buf := b ++ l.take (maxQ - b.length) } ∧
        (∀ k, k ≠ g → w1.queues k = w.queues k) ∧ w1.trace = w.trace := by
  induction l with
  | nil => intro w b hq _; exact ⟨w, rfl, by simpa using hq, fun _ _ => rfl, rfl⟩
  | cons p ps ih =>
    intro w b hq hb
    by_cases hlt : b.length < maxQ
    · have hq2 : (w.set g { cap := maxQ, buf := b ++ [p] }).queues g =
          some { cap := maxQ, buf := b ++ [p] } := by simp [World.set]
      obtain ⟨w1, h1, h2, h3, h4⟩ := ih _ (b ++ [p]) hq2 (by simp; omega)
      refine ⟨w1, ?_, ?_, ?_, ?_⟩
      · simp only [registerAll, enqueuePlay.register, hq, hlt, if_true]
        exact h1
      · rw [h2]
        have : maxQ - b.length = (maxQ - (b ++ [p]).length) + 1 := by simp; omega
        rw [this, List.take_succ_cons]; simp
      · intro k hk; rw [h3 k hk]; simp [World.set, hk]
      · rw [h4]; rfl
    · have hz : maxQ - b.length = 0 := by omega
      obtain ⟨w1, h1, h2, h3, h4⟩ := ih w b hq hb
      refine ⟨w1, ?_, ?_, h3, h4⟩
      · simp only [registerAll, enqueuePlay.register, hq, hlt, if_false]
        exact h1
      · rw [h2, hz]; simp

/-- Claim C1: play order within one guild.  The guild is Idle, request `first`
arrives and creates the queue, the requests `later` are all offered before the worker
looks at the queue, and the voice join succeeds.  Then the worker, given recursion
depth for two calls per admitted request, returns, and what it played, by the stats
dispatches and by the clips the transport saw, is exactly `first` followed by the
first `capacity` requests of `later`, each once, in arrival order, every request
directly followed by its `Next`; no later request is played, and the guild ends
Idle. -/
theorem play_order_is_arrival_order (d : Discord) (capacity : Nat) (g : String) (w0 : World)
    (first : Play) (later : List Play) (fuel : Nat)
    (hidle : w0.queues g = none)
    (hbuilt : ∀ p ∈ first :: later, p.wellBuilt g = true)
    (hjoin : d.ChannelVoiceJoin g first.ChannelID = none)
    (hfuel : 2 * capacity + 2 ≤ fuel) :
    ∃ w1 wn r t,
      enqueuePlay.register capacity g first w0 = .ok (w1, true) ∧
      registerAll capacity g later w1 = .ok wn ∧
      playSound d fuel first none wn = some (.ok r) ∧
      r.world.trace = w0.trace ++ .voiceJoin g first.ChannelID :: t ∧
      played t = (first :: later.take capacity).flatMap Play.withNext ∧
      sentClips t = ((first :: later.take capacity).flatMap Play.withNext).map Play.frames ∧
      r.world.queues g = none := by
  have hfirst : first.wellBuilt g = true := hbuilt first (by simp)
  have hg : first.GuildID = g := (wellBuilt_inv g first hfirst).1
  have hq1 : (w0.set g { cap := capacity, buf := [] }).queues g =
      some { cap := capacity, buf := [] } := by simp [World.set]
  obtain ⟨wn, hn1, hn2, _, hn4⟩ :=
    registerAll_fills capacity g later (w0.set g { cap := capacity, buf := [] }) [] hq1 (by simp)
  simp only [List.nil_append, List.length_nil, Nat.sub_zero] at hn2
  obtain ⟨f, rfl⟩ : ∃ f, fuel = f + 1 := ⟨fuel - 1, by omega⟩
  have hq2 : (wn.emit [.voiceJoin first.GuildID first.ChannelID]).queues g =
      some { cap := capacity, buf := later.take capacity } := hn2
  have hall : ∀ y ∈ later.take capacity, y.wellBuilt g = true := fun y hy =>
    hbuilt y (List.mem_cons_of_mem _ (List.mem_of_mem_take hy))
  have hlen : 2 * (later.take capacity).length + 2 ≤ f + 1 := by
    have := List.length_take_le capacity later
    omega
  obtain ⟨r, hr, h1, _, t, ht1, ht2⟩ := playSound_drains d g (later.take capacity) (f + 1) first
    { GuildID := first.GuildID, ChannelID := first.ChannelID }
    (wn.emit [.voiceJoin first.GuildID first.ChannelID]) capacity hfirst hq2 hall hlen
  refine ⟨w0.set g { cap := capacity, buf := [] }, wn, r, t, ?_, hn1, ?_, ?_, ?_, ?_, h1⟩
  · simp only [enqueuePlay.register, hidle]
  · rw [playSound_join_ok d f first wn (by rw [hg]; exact hjoin)]
    exact hr
  · rw [ht1, ← hg]
    simp [World.emit, hn4, World.set]
  · simpa using ht2.1
  · have := ht2.2 []
    simpa [sentClips, sentClipsFrom] using this


theorem play_order_is_arrival_order_witness :
    ∃ w1 wn r t,
      enqueuePlay.register MAX_QUEUE_SIZE "G" (exRequest "A") exIdle = .ok (w1, true) ∧
      registerAll MAX_QUEUE_SIZE "G" exLater w1 = .ok wn ∧
      playSound exDiscord 14 (exRequest "A") none wn = some (.ok r) ∧
      r.world.trace = exIdle.trace ++ .voiceJoin "G" "c1" :: t ∧
      played t = [exRequest "A", exRequest "B", exRequest "C", exRequest "D", exRequest "E",
        exRequest "F", exRequest "G2"] ∧
      sentClips t = [[[1]], [[1]], [[1]], [[1]], [[1]], [[1]], [[1]]] ∧
      r.world.queues "G" = none :=
  play_order_is_arrival_order exDiscord MAX_QUEUE_SIZE "G" exIdle (exRequest "A") exLater 14
    rfl (by decide) rfl (by decide)

/-! ## The registry stays bounded; `enqueuePlay` on Active and Idle guilds -/

theorem Bounded_of_Shrinks (maxQ : Nat) (w w1 : World) (h : World.Shrinks w w1)
    (hb : w.Bounded maxQ) : w1.Bounded maxQ := by
  intro g q1 hq1
  obtain ⟨q, pre, hq, hc, hbuf⟩ := h g q1 hq1
  obtain ⟨h1, h2⟩ := hb g q hq
  refine ⟨hc.trans h1, ?_⟩
  have : q.buf.length = pre.length + q1.buf.length := by rw [hbuf]; simp
  omega

theorem Bounded_register (maxQ : Nat) (g : String) (p : Play) (w w1 : World) (start : Bool)
    (h : enqueuePlay.register maxQ g p w = .ok (w1, start)) (hb : w.Bounded maxQ) :
    w1.Bounded maxQ := by
  unfold enqueuePlay.register at h
  split at h
  · rename_i q hq
    split at h
    · rename_i hlt
      split at h
      · simp only [Except.ok.injEq, Prod.mk.injEq] at h
        rw [← h.1]
        intro k q1 hq1
        simp only [World.set] at hq1
        split at hq1
        · simp only [Option.some.injEq] at hq1
          rw [← hq1]
          refine ⟨(hb g q hq).1, ?_⟩
          simp; omega
        · exact hb k q1 hq1
      · exact absurd h (by simp)
    · simp only [Except.ok.injEq, Prod.mk.injEq] at h
      rw [← h.1]; exact hb
  · simp only [Except.ok.injEq, Prod.mk.injEq] at h
    rw [← h.1]
    intro k q1 hq1
    simp only [World.set] at hq1
    split at hq1
    · simp only [Option.some.injEq] at hq1
      rw [← hq1]; exact ⟨rfl, Nat.zero_le _⟩
    · exact hb k q1 hq1

theorem Reachable_Bounded (d : Discord) (maxQ : Nat) (w : World) (h : Reachable d maxQ w) :
    w.Bounded maxQ := by
  induction h with
  | init => intro g q hq; simp at hq
  | enqueue w w1 g p start _ hadm ih => exact Bounded_register maxQ g p w w1 start hadm ih
  | worker w fuel p vc r _ hrun ih =>
    exact Bounded_of_Shrinks maxQ w r.world (playSound_shrinks d fuel p vc w r hrun) ih

/-- Claim C2: `enqueuePlay` on an Active guild whose queue was made with capacity
`maxQ`.  Below `maxQ` queued requests the built request is appended at the tail and
nothing else changes; at `maxQ` the request is dropped and the world is unchanged.
Hence in every reachable world every queue holds at most `maxQ` requests. -/
theorem enqueuePlay_active (d : Discord) (maxQ fuel : Nat) (user : User) (guild : Guild)
    (coll : SoundCollection) (sound : Option Sound) (r1 r2 : Nat) (w : World) (play : Play)
    (q : Chan)
    (hbuilt : createPlay d user guild coll sound r1 r2 = .ok (some play))
    (hactive : w.queues guild.ID = some q)
    (hcap : q.cap = maxQ) :
    (q.buf.length < maxQ →
      ∃ w1, enqueuePlay d maxQ fuel user guild coll sound r1 r2 w = some (.ok w1) ∧
        w1.queues guild.ID = some { cap := q.cap, buf := q.buf ++ [play] } ∧
        (∀ k, k ≠ guild.ID → w1.queues k = w.queues k) ∧ w1.trace = w.trace) ∧
    (maxQ ≤ q.buf.length →
      enqueuePlay d maxQ fuel user guild coll sound r1 r2 w = some (.ok w)) ∧
    (∀ w1, Reachable d maxQ w1 → ∀ g q1, w1.queues g = some q1 → q1.buf.length ≤ maxQ) := by
  refine ⟨?_, ?_, ?_⟩
  · intro hlt
    have hlt2 : q.buf.length < q.cap := by omega
    refine ⟨w.set guild.ID { q with buf := q.buf ++ [play] }, ?_, ?_, ?_, rfl⟩
    · simp only [enqueuePlay, hbuilt, enqueuePlay.register, hactive, hlt, hlt2, if_true]
    · simp [World.set]
    · intro k hk; simp [World.set, hk]
  · intro hge
    have hnlt : ¬ q.buf.length < maxQ := by omega
    simp only [enqueuePlay, hbuilt, enqueuePlay.register, hactive, hnlt, if_false]
  · intro w1 hw1 g q1 hq1
    exact (Reachable_Bounded d maxQ w1 hw1 g q1 hq1).2

theorem enqueuePlay_active_witness :
    (∃ w1, enqueuePlay exDiscord MAX_QUEUE_SIZE 0 exUser exGuild exChained none 500 3
          (exActive [exRequest "B"]) = some (.ok w1) ∧
        w1.queues "G" = some { cap := MAX_QUEUE_SIZE, buf := [exRequest "B"] ++ [exParent] } ∧
        (∀ k, k ≠ "G" → w1.queues k = (exActive [exRequest "B"]).queues k) ∧
        w1.trace = (exActive [exRequest "B"]).trace) ∧
      enqueuePlay exDiscord 1 0 exUser exGuild exChained none 500 3
          { queues := fun _ => some { cap := 1, buf := [exRequest "B"] }, trace := [] } =
        some (.ok { queues := fun _ => some { cap := 1, buf := [exRequest "B"] }, trace := [] }) :=
  ⟨(enqueuePlay_active exDiscord MAX_QUEUE_SIZE 0 exUser exGuild exChained none 500 3
      (exActive [exRequest "B"]) exParent { cap := MAX_QUEUE_SIZE, buf := [exRequest "B"] }
      rfl rfl rfl).1 (by decide),
    (enqueuePlay_active exDiscord 1 0 exUser exGuild exChained none 500 3
      { queues := fun _ => some { cap := 1, buf := [exRequest "B"] }, trace := [] }
      exParent { cap := 1, buf := [exRequest "B"] } rfl rfl rfl).2.1 (by decide)⟩

/-- Claim C3: `enqueuePlay` on an Idle guild.  A new empty queue of capacity `maxQ`
is registered under the guild id, no other entry is touched, and `enqueuePlay` is
the worker `playSound` run on the built request with no connection from that world;
the worker adds nothing to any queue, so the request never sits in the queue.  When
the clips are resolved and the voice join succeeds, `enqueuePlay` returns, given
recursion depth 2, with the registry as it found it. -/
theorem enqueuePlay_idle (d : Discord) (maxQ fuel : Nat) (user : User) (guild : Guild)
    (coll : SoundCollection) (sound : Option Sound) (r1 r2 : Nat) (w : World) (play : Play)
    (hbuilt : createPlay d user guild coll sound r1 r2 = .ok (some play))
    (hidle : w.queues guild.ID = none) :
    ∃ w1, enqueuePlay.register maxQ guild.ID play w = .ok (w1, true) ∧
      w1.queues guild.ID = some { cap := maxQ, buf := [] } ∧
      (∀ k, k ≠ guild.ID → w1.queues k = w.queues k) ∧
      w1.trace = w.trace ∧
      enqueuePlay d maxQ fuel user guild coll sound r1 r2 w =
        (match playSound d fuel play none w1 with
         | none => none
         | some (.error f) => some (.error f)
         | some (.ok r) => some (.ok r.world)) ∧
      (∀ r, playSound d fuel play none w1 = some (.ok r) →
        ∀ k q1, r.world.queues k = some q1 →
          ∃ q pre, w1.queues k = some q ∧ q.buf = pre ++ q1.buf ∧ (k = guild.ID → q1.buf = [])) ∧
      (play.Sound.isSome = true → (∀ n, play.Next = some n → n.Sound.isSome = true) →
        d.ChannelVoiceJoin guild.ID play.ChannelID = none → 2 ≤ fuel →
        ∃ w2, enqueuePlay d maxQ fuel user guild coll sound r1 r2 w = some (.ok w2) ∧
          ∀ k, w2.queues k = w.queues k) := by
  refine ⟨w.set guild.ID { cap := maxQ, buf := [] }, ?_, ?_, ?_, rfl, ?_, ?_, ?_⟩
  · simp only [enqueuePlay.register, hidle]
  · simp [World.set]
  · intro k hk; simp [World.set, hk]
  · simp only [enqueuePlay, hbuilt, enqueuePlay.register, hidle]
  · intro r hr k q1 hq1
    obtain ⟨q, pre, hq, _, hbuf⟩ := playSound_shrinks d fuel play none _ r hr k q1 hq1
    refine ⟨q, pre, hq, hbuf, ?_⟩
    intro hk
    subst hk
    simp only [World.set, if_true, Option.some.injEq] at hq
    rw [← hq] at hbuf
    simp only at hbuf
    exact (List.append_eq_nil.mp hbuf.symm).2
  · intro hs hn hjoin hfuel
    have hwb := createPlay_wellBuilt d user guild coll sound r1 r2 play hbuilt hs hn
    have hg : play.GuildID = guild.ID := (wellBuilt_inv guild.ID play hwb).1
    obtain ⟨f, rfl⟩ : ∃ f, fuel = f + 1 := ⟨fuel - 1, by omega⟩
    have hq : ((w.set guild.ID { cap := maxQ, buf := [] }).emit
        [.voiceJoin play.GuildID play.ChannelID]).queues guild.ID =
        some { cap := maxQ, buf := [] } := by simp [World.set, World.emit]
    obtain ⟨r, hr, h1, h2, _⟩ := playSound_drains d guild.ID [] (f + 1) play
      { GuildID := play.GuildID, ChannelID := play.ChannelID } _ maxQ hwb hq
      (fun y hy => by simp at hy) (by simp; omega)
    refine ⟨r.world, ?_, ?_⟩
    · simp only [enqueuePlay, hbuilt, enqueuePlay.register, hidle]
      rw [playSound_join_ok d f play _ (by rw [hg]; exact hjoin), hr]
    · intro k
      by_cases hk : k = guild.ID
      · rw [hk, h1, hidle]
      · rw [h2 k hk]; simp [World.set, World.emit, hk]

theorem enqueuePlay_idle_witness :
    ∃ w1, enqueuePlay.register MAX_QUEUE_SIZE "G" exParent exIdle = .ok (w1, true) ∧
      w1.queues "G" = some { cap := MAX_QUEUE_SIZE, buf := [] } ∧
      (∀ k, k ≠ "G" → w1.queues k = exIdle.queues k) ∧
      w1.trace = exIdle.trace ∧
      enqueuePlay exDiscord MAX_QUEUE_SIZE 5 exUser exGuild exChained none 500 3 exIdle =
        (match playSound exDiscord 5 exParent none w1 with
         | none => none
         | some (.error f) => some (.error f)
         | some (.ok r) => some (.ok r.world)) ∧
      (∀ r, playSound exDiscord 5 exParent none w1 = some (.ok r) →
        ∀ k q1, r.world.queues k = some q1 →
          ∃ q pre, w1.queues k = some q ∧ q.buf = pre ++ q1.buf ∧ (k = "G" → q1.buf = [])) ∧
      (exParent.Sound.isSome = true → (∀ n, exParent.Next = some n → n.Sound.isSome = true) →
        exDiscord.ChannelVoiceJoin "G" exParent.ChannelID = none → 2 ≤ 5 →
        ∃ w2, enqueuePlay exDiscord MAX_QUEUE_SIZE 5 exUser exGuild exChained none 500 3 exIdle =
            some (.ok w2) ∧
          ∀ k, w2.queues k = exIdle.queues k) :=
  enqueuePlay_idle exDiscord MAX_QUEUE_SIZE 5 exUser exGuild exChained none 500 3 exIdle
    exParent rfl rfl

/-! ## A failed voice join -/

theorem sentClipsFrom_append_join (g c : String) (t : List Event) :
    ∀ cur, sentClipsFrom cur (t ++ [.voiceJoin g c]) = sentClipsFrom cur t := by
  induction t with
  | nil => intro cur; cases cur <;> rfl
  | cons e es ih =>
    intro cur
    cases e with
    | speaking b =>
      cases b with
      | true => simp only [List.cons_append, sentClipsFrom_open, ih]
      | false =>
        cases cur with
        | none =>
          have h : ∀ l, sentClipsFrom none (.speaking false :: l) = sentClipsFrom none l :=
            fun _ => rfl
          simp only [List.cons_append, h, ih]
        | some acc => simp only [List.cons_append, sentClipsFrom_close, ih]
    | opusSend f =>
      cases cur with
      | none =>
        have h : ∀ l, sentClipsFrom none (.opusSend f :: l) = sentClipsFrom none l :=
          fun _ => rfl
        simp only [List.cons_append, h, ih]
      | some acc => simp only [List.cons_append, sentClipsFrom_send, ih]
    | voiceJoin _ _ => simp only [List.cons_append, sentClipsFrom_join, ih]
    | changeChannel _ => simp only [List.cons_append, sentClipsFrom_change, ih]
    | sleep _ => simp only [List.cons_append, sentClipsFrom_sleep, ih]
    | trackSoundStats _ => simp only [List.cons_append, sentClipsFrom_track, ih]
    | disconnect => simp only [List.cons_append, sentClipsFrom_disconnect, ih]

/-- Claim C10: a failed voice join aborts the session.  Called with no connection
when `discord.ChannelVoiceJoin` fails, `playSound` returns that error, removes the
guild's registry entry with whatever was queued in it, leaves every other guild's
entry alone, and its only action is the join attempt: no stats dispatch, no frame. -/
theorem playSound_join_failure (d : Discord) (fuel : Nat) (play : Play) (w : World) (e : Error)
    (hfail : d.ChannelVoiceJoin play.GuildID play.ChannelID = some e) :
    ∃ r, playSound d (fuel + 1) play none w = some (.ok r) ∧
      r.err = some e ∧ r.vc = none ∧
      r.world.queues play.GuildID = none ∧
      (∀ k, k ≠ play.GuildID → r.world.queues k = w.queues k) ∧
      r.world.trace = w.trace ++ [.voiceJoin play.GuildID play.ChannelID] ∧
      played r.world.trace = played w.trace ∧
      sentClips r.world.trace = sentClips w.trace := by
  refine ⟨{ err := some e, vc := none,
            world := (w.emit [.voiceJoin play.GuildID play.ChannelID]).delete play.GuildID },
    ?_, rfl, rfl, ?_, ?_, rfl, ?_, ?_⟩
  · simp only [playSound, playSound.join, hfail]
  · simp [World.delete]
  · intro k hk; simp [World.delete, World.emit, hk]
  · simp [World.delete, World.emit, played_append, played]
  · exact sentClipsFrom_append_join _ _ _ _

theorem playSound_join_failure_witness :
    ∃ r, playSound exDiscordDown 1 (exRequest "A") none (exActive [exRequest "B"]) =
        some (.ok r) ∧
      r.err = some .voiceJoinFailed ∧ r.vc = none ∧
      r.world.queues "G" = none ∧
      (∀ k, k ≠ "G" → r.world.queues k = (exActive [exRequest "B"]).queues k) ∧
      r.world.trace = (exActive [exRequest "B"]).trace ++ [.voiceJoin "G" "c1"] ∧
      played r.world.trace = played (exActive [exRequest "B"]).trace ∧
      sentClips r.world.trace = sentClips (exActive [exRequest "B"]).trace :=
  playSound_join_failure exDiscordDown 0 (exRequest "A") (exActive [exRequest "B"])
    .voiceJoinFailed rfl

/-! ## Teardown of a chained request -/

/-- Claim C4 fails as stated, for a request whose `Next` is set.  On a chained request
with an empty queue and a successful join the worker calls `vc.Disconnect()` twice,
first after the 100 ms of the follow-up's clip, the last clip played, and again after
the 250 ms of the parent's clip; the guild does end without registry entry.  The
follow-up alone, as a request of its own, is torn down once. -/
theorem playSound_chained_disconnects_twice :
    exTeardown (playSound exDiscord 2 exParent none (exActive [])) =
        some (2, [100, 250], true) ∧
      exTeardown (playSound exDiscord 2 exFollowUp none (exActive [])) =
        some (1, [100], true) := by
  decide

/-! ## Teardown of a session without chained requests -/

theorem changeChannel_vc (p : Play) (vc : VoiceConnection) (w : World) :
    (playSound.changeChannel p vc w).1 = { vc with ChannelID := p.ChannelID } := by
  unfold playSound.changeChannel
  split
  · rfl
  · rename_i h
    have h2 : vc.ChannelID = p.ChannelID := by simpa using h
    cases vc
    simp only at h2
    subst h2
    rfl

theorem disconnects_append (a b : List Event) :
    disconnects (a ++ b) = disconnects a + disconnects b := by
  induction a with
  | nil => simp [disconnects]
  | cons e es ih =>
    cases e with
    | disconnect =>
      have h : disconnects (.disconnect :: (es ++ b)) = disconnects (es ++ b) + 1 := rfl
      have h2 : disconnects (.disconnect :: es) = disconnects es + 1 := rfl
      rw [List.cons_append, h, h2, ih]; omega
    | sleep _ => simpa [disconnects] using ih
    | voiceJoin _ _ => simpa [disconnects] using ih
    | changeChannel _ => simpa [disconnects] using ih
    | trackSoundStats _ => simpa [disconnects] using ih
    | speaking _ => simpa [disconnects] using ih
    | opusSend _ => simpa [disconnects] using ih

theorem disconnects_Play (s : Sound) : disconnects s.Play = 0 := by
  have h : ∀ fs : List Frame, disconnects (fs.map Event.opusSend) = 0 := by
    intro fs; induction fs with
    | nil => rfl
    | cons f fs ih => simpa [disconnects] using ih
  simp [Sound.Play, disconnects_append, disconnects, h]

theorem disconnects_clipEvents (p : Play) (s : Sound) (vc : VoiceConnection) :
    disconnects (playSound.clipEvents p s vc) = 0 := by
  unfold playSound.clipEvents
  rw [disconnects_append, disconnects_append, disconnects_Play]
  split <;> simp [disconnects]

theorem disconnects_sessionEvents (ps : List Play) :
    ∀ vc, disconnects (sessionEvents vc ps) = 0 := by
  induction ps with
  | nil => intro vc; rfl
  | cons p ps ih =>
    intro vc
    simp only [sessionEvents]
    split
    · rfl
    · simp [disconnects_append, disconnects_clipEvents, ih]

/-- In a trace without disconnect followed by a pause and a disconnect, that pause is
the only one before a disconnect. -/
theorem pausesBeforeDisconnect_tail (ms : Int) (a : List Event) :
    disconnects a = 0 →
      pausesBeforeDisconnect (a ++ [.sleep ms, .disconnect]) = [ms] := by
  induction a with
  | nil => intro _; rfl
  | cons e es ih =>
    intro h
    cases e with
    | disconnect => simp [disconnects] at h
    | sleep x =>
      have hes : disconnects es = 0 := by simpa [disconnects] using h
      cases es with
      | nil => rfl
      | cons e2 es2 =>
        cases e2 with
        | disconnect => simp [disconnects] at hes
        | sleep _ => simpa [pausesBeforeDisconnect] using ih hes
        | voiceJoin _ _ => simpa [pausesBeforeDisconnect] using ih hes
        | changeChannel _ => simpa [pausesBeforeDisconnect] using ih hes
        | trackSoundStats _ => simpa [pausesBeforeDisconnect] using ih hes
        | speaking _ => simpa [pausesBeforeDisconnect] using ih hes
        | opusSend _ => simpa [pausesBeforeDisconnect] using ih hes
    | voiceJoin _ _ =>
      have hes : disconnects es = 0 := by simpa [disconnects] using h
      simpa [pausesBeforeDisconnect] using ih hes
    | changeChannel _ =>
      have hes : disconnects es = 0 := by simpa [disconnects] using h
      simpa [pausesBeforeDisconnect] using ih hes
    | trackSoundStats _ =>
      have hes : disconnects es = 0 := by simpa [disconnects] using h
      simpa [pausesBeforeDisconnect] using ih hes
    | speaking _ =>
      have hes : disconnects es = 0 := by simpa [disconnects] using h
      simpa [pausesBeforeDisconnect] using ih hes
    | opusSend _ =>
      have hes : disconnects es = 0 := by simpa [disconnects] using h
      simpa [pausesBeforeDisconnect] using ih hes

/-- A play without follow-up, on an open connection, with a queue of plays without
follow-up: the worker plays them all in order, and tears down once, after the pause
of the last play. -/
theorem playSound_unchained (d : Discord) (g : String) (q : List Play) :
    ∀ (fuel : Nat) (p : Play) (vc : VoiceConnection) (w : World) (cap : Nat),
      p.wellBuilt g = true → p.Next = none → w.queues g = some { cap := cap, buf := q } →
      (∀ x ∈ q, x.wellBuilt g = true ∧ x.Next = none) → q.length + 1 ≤ fuel →
      ∃ r, playSound d fuel p (some vc) w = some (.ok r) ∧
        r.world.queues g = none ∧ (∀ k, k ≠ g → r.world.queues k = w.queues k) ∧
        r.world.trace = w.trace ++ (sessionEvents vc (p :: q) ++
          [.sleep (lastPlay p q).partDelay, .disconnect]) := by
  induction q with
  | nil =>
    intro fuel p vc w cap hp hn hq _ hf
    obtain ⟨hg, s, hs, _⟩ := wellBuilt_inv g p hp
    obtain ⟨f, rfl⟩ : ∃ f, fuel = f + 1 := ⟨fuel - 1, by simp at hf; omega⟩
    refine ⟨_, playSound_done d f p s vc w hs hn ?_, ?_, ?_, ?_⟩
    · intro cap x xs h; rw [hg, hq] at h; simp at h
    · simp [playSound.teardown, World.emit, World.delete, hg]
    · intro k hk
      simp [playSound.teardown, World.emit, World.delete, hg, hk]
    · simp [playSound.teardown, World.emit, World.delete, sessionEvents, hs, lastPlay,
        Play.partDelay]
  | cons x xs ih =>
    intro fuel p vc w cap hp hn hq hall hf
    obtain ⟨hg, s, hs, _⟩ := wellBuilt_inv g p hp
    obtain ⟨f, rfl⟩ : ∃ f, fuel = f + 1 := ⟨fuel - 1, by simp at hf; omega⟩
    have hx := hall x (by simp)
    have hxs : ∀ y ∈ xs, y.wellBuilt g = true ∧ y.Next = none :=
      fun y hy => hall y (List.mem_cons_of_mem _ hy)
    have hq2 : ((w.emit (playSound.clipEvents p s vc)).set p.GuildID
        { cap := cap, buf := xs }).queues g = some { cap := cap, buf := xs } := by
      simp [World.set, hg]
    obtain ⟨r2, hr2, h1, h2, h3⟩ := ih f x (playSound.changeChannel p vc w).1 _ cap hx.1 hx.2
      hq2 hxs (by simp only [List.length_cons] at hf; omega)
    refine ⟨{ err := none, vc := some (r2.vc.getD (playSound.changeChannel p vc w).1),
              world := r2.world }, ?_, h1, ?_, ?_⟩
    · rw [playSound_pop d f p s vc w cap x xs hs hn (by rw [hg]; exact hq), hr2]
    · intro k hk
      rw [h2 k hk]
      simp [World.set, World.emit, hg, hk]
    · simp only [h3, changeChannel_vc]
      simp [World.set, World.emit, sessionEvents, hs, lastPlay]

/-- Claim C4, amended to sessions in which no request has a `Next`, which is every
session the clip tables of the program give rise to.  Started with no connection on
any queue content, with the voice join succeeding and recursion depth for one call
per request, the worker returns; after the join it does exactly the steps of each
request in turn, then one pause of the `PartDelay` of the last clip played, then one
`vc.Disconnect()`: the connection is disconnected once, no other pause precedes a
disconnect, and the guild ends without registry entry, the other guilds untouched. -/
theorem teardown_once_without_chain (d : Discord) (g : String) (w : World) (first : Play)
    (queue : List Play) (cap fuel : Nat)
    (hq : w.queues g = some { cap := cap, buf := queue })
    (hbuilt : ∀ p ∈ first :: queue, p.wellBuilt g = true ∧ p.Next = none)
    (hjoin : d.ChannelVoiceJoin g first.ChannelID = none)
    (hfuel : queue.length + 1 ≤ fuel) :
    ∃ r t, playSound d fuel first none w = some (.ok r) ∧
      r.world.trace = w.trace ++ .voiceJoin g first.ChannelID :: t ∧
      t = sessionEvents { GuildID := g, ChannelID := first.ChannelID } (first :: queue) ++
        [.sleep (lastPlay first queue).partDelay, .disconnect] ∧
      disconnects t = 1 ∧
      pausesBeforeDisconnect t = [(lastPlay first queue).partDelay] ∧
      r.world.queues g = none ∧ (∀ k, k ≠ g → r.world.queues k = w.queues k) := by
  have hfirst := hbuilt first (by simp)
  have hg : first.GuildID = g := (wellBuilt_inv g first hfirst.1).1
  obtain ⟨f, rfl⟩ : ∃ f, fuel = f + 1 := ⟨fuel - 1, by omega⟩
  obtain ⟨r, hr, h1, h2, h3⟩ := playSound_unchained d g queue (f + 1) first
    { GuildID := first.GuildID, ChannelID := first.ChannelID }
    (w.emit [.voiceJoin first.GuildID first.ChannelID]) cap hfirst.1 hfirst.2 hq
    (fun x hx => hbuilt x (List.mem_cons_of_mem _ hx)) hfuel
  refine ⟨r, _, ?_, ?_, rfl, ?_, ?_, h1, h2⟩
  · rw [playSound_join_ok d f first w (by rw [hg]; exact hjoin)]
    exact hr
  · rw [h3, hg]
    simp [World.emit]
  · rw [disconnects_append, disconnects_sessionEvents]
    rfl
  · exact pausesBeforeDisconnect_tail _ _ (disconnects_sessionEvents _ _)

theorem teardown_once_without_chain_witness :
    ∃ r t, playSound exDiscord 3 (exRequest "A") none (exActive [exRequest "B", exSwitch]) =
        some (.ok r) ∧
      r.world.trace =
        (exActive [exRequest "B", exSwitch]).trace ++ .voiceJoin "G" "c1" :: t ∧
      t = sessionEvents { GuildID := "G", ChannelID := "c1" }
          (exRequest "A" :: [exRequest "B", exSwitch]) ++
        [.sleep 40, .disconnect] ∧
      disconnects t = 1 ∧
      pausesBeforeDisconnect t = [40] ∧
      r.world.queues "G" = none ∧
      (∀ k, k ≠ "G" → r.world.queues k = (exActive [exRequest "B", exSwitch]).queues k) :=
  teardown_once_without_chain exDiscord "G" (exActive [exRequest "B", exSwitch])
    (exRequest "A") [exRequest "B", exSwitch] MAX_QUEUE_SIZE 3 rfl (by decide) rfl
    (by decide)


/-! ## Reading clip files: round trip and failure -/

theorem int16LE_length (n : Nat) (h : n ≤ 32767) :
    int16LE (n % 256) (n / 256 % 256) = (n : Int) := by
  unfold int16LE
  have h1 : n % 256 % 256 + 256 * (n / 256 % 256 % 256) = n := by omega
  simp only [h1]
  have h2 : n < 32768 := by omega
  simp [h2]

theorem Sound_Load_path (fs : String → Option (List Byte)) (s : Sound) (c : SoundCollection) :
    Sound.Load fs s c =
      match fs (s.path c) with
      | none => .ok (some (.openFailed (s.path c)), s)
      | some file =>
        match Sound.Load.loop file.length file s.buffer with
        | .error f => .error f
        | .ok (err, buf) => .ok (err, { s with buffer := buf }) := rfl

/-- The loop of `Sound.Load` reads back a well-formed stream frame by frame. -/
theorem Sound_Load_loop_encodeFrames (frames : List Frame) :
    ∀ (fuel : Nat) (buf : List Frame), (∀ f ∈ frames, f.length ≤ 32767) →
      (encodeFrames frames).length ≤ fuel →
      Sound.Load.loop fuel (encodeFrames frames) buf = .ok (none, buf ++ frames) := by
  induction frames with
  | nil =>
    intro fuel buf _ _
    cases fuel <;> simp [encodeFrames, Sound.Load.loop]
  | cons f fs ih =>
    intro fuel buf hlen hfuel
    have hf : f.length ≤ 32767 := hlen f (by simp)
    have henc : encodeFrames (f :: fs) =
        (f.length % 256) :: (f.length / 256 % 256) :: (f ++ encodeFrames fs) := by
      simp [encodeFrames, encodeFrame]
    rw [henc] at hfuel ⊢
    obtain ⟨k, rfl⟩ : ∃ k, fuel = k + 1 := ⟨fuel - 1, by simp at hfuel; omega⟩
    simp only [Sound.Load.loop, int16LE_length f.length hf]
    have h1 : ¬ ((f.length : Int) < 0) := by omega
    have h2 : ¬ ((f ++ encodeFrames fs).length < (f.length : Int).toNat) := by simp
    simp only [h1, h2, if_false, Int.toNat_ofNat, List.drop_left, List.take_left]
    rw [ih k (buf ++ [f]) (fun g hg => hlen g (List.mem_cons_of_mem _ hg))
      (by simp at hfuel ⊢; omega)]
    simp


theorem Framed_append_frames (file : List Byte) (frames : List Frame) (tail : List Byte)
    (h : Framed file frames tail) : ∀ (more : List Frame) (tail2 : List Byte),
      Framed tail more tail2 → Framed file (frames ++ more) tail2 := by
  induction h with
  | done t => intro more tail2 h2; simpa using h2
  | frame b0 b1 f rest frames tail hlen _ ih =>
    intro more tail2 h2
    exact Framed.frame b0 b1 f rest (frames ++ more) tail2 hlen (ih more tail2 h2)

/-- When the loop of `Sound.Load` returns an error, the file consists of the frames
the loop appended to the buffer, followed by a header whose frame is cut short. -/
theorem Sound_Load_loop_error (fuel : Nat) :
    ∀ (rest : List Byte) (buf buf1 : List Frame) (e : Error),
      Sound.Load.loop fuel rest buf = .ok (some e, buf1) →
      ∃ frames b0 b1 tail, buf1 = buf ++ frames ∧ Framed rest frames (b0 :: b1 :: tail) ∧
        0 ≤ int16LE b0 b1 ∧ tail.length < (int16LE b0 b1).toNat := by
  induction fuel with
  | zero => intro rest buf buf1 e h; simp [Sound.Load.loop] at h
  | succ k ih =>
    intro rest buf buf1 e h
    match rest, h with
    | [], h => simp [Sound.Load.loop] at h
    | [_], h => simp [Sound.Load.loop] at h
    | b0 :: b1 :: rest, h =>
      simp only [Sound.Load.loop] at h
      split at h
      · exact absurd h (by simp)
      · rename_i hneg
        split at h
        · rename_i hshort
          simp only [Except.ok.injEq, Prod.mk.injEq] at h
          exact ⟨[], b0, b1, rest, by simp [h.2], Framed.done _, by omega, hshort⟩
        · rename_i hlong
          obtain ⟨frames, c0, c1, tail, h1, h2, h3, h4⟩ := ih _ _ _ _ h
          refine ⟨rest.take (int16LE b0 b1).toNat :: frames, c0, c1, tail, ?_, ?_, h3, h4⟩
          · rw [h1]; simp
          · have hl : ((rest.take (int16LE b0 b1).toNat).length : Int) = int16LE b0 b1 := by
              rw [List.length_take, Nat.min_eq_left (by omega)]
              exact Int.toNat_of_nonneg (by omega)
            have := Framed.frame b0 b1 (rest.take (int16LE b0 b1).toNat)
              (rest.drop (int16LE b0 b1).toNat) frames (c0 :: c1 :: tail) hl.symm h2
            rwa [List.take_append_drop] at this

/-- The loop of `Sound.Load` does not fault on a file without negative frame length. -/
theorem Sound_Load_loop_no_fault (fuel : Nat) :
    ∀ (rest : List Byte) (buf : List Frame), NoNegativeLength rest →
      ∃ e buf1, Sound.Load.loop fuel rest buf = .ok (e, buf1) := by
  induction fuel with
  | zero => intro rest buf _; exact ⟨none, buf, rfl⟩
  | succ k ih =>
    intro rest buf hno
    match rest, hno with
    | [], _ => exact ⟨none, buf, rfl⟩
    | [_], _ => exact ⟨none, buf, rfl⟩
    | b0 :: b1 :: rest, hno =>
      have hpos : 0 ≤ int16LE b0 b1 := hno [] b0 b1 rest (Framed.done _)
      have hneg : ¬ int16LE b0 b1 < 0 := by omega
      simp only [Sound.Load.loop, hneg, if_false]
      split
      · exact ⟨_, _, rfl⟩
      · rename_i hlong
        apply ih
        intro frames c0 c1 tail hfr
        have hl : ((rest.take (int16LE b0 b1).toNat).length : Int) = int16LE b0 b1 := by
          rw [List.length_take, Nat.min_eq_left (by omega)]
          exact Int.toNat_of_nonneg hpos
        have := Framed.frame b0 b1 (rest.take (int16LE b0 b1).toNat)
          (rest.drop (int16LE b0 b1).toNat) frames (c0 :: c1 :: tail) hl.symm hfr
        rw [List.take_append_drop] at this
        exact hno _ c0 c1 tail this

/-- The loop of `SoundCollection.Load` visits every clip: its result is the list of
the clips as their own `Load` left them, whether or not a `Load` returned an error. -/
theorem Load_loop_visits_all (fs : String → Option (List Byte)) (sc : SoundCollection)
    (l : List Sound) :
    ∀ (r : Int), (∀ s ∈ l, ∃ e s1, Sound.Load fs s sc = .ok (e, s1)) →
      ∃ l1 r1, SoundCollection.Load.loop fs sc l r = .ok (l1, r1) ∧
        List.Forall₂ (fun s s1 => ∃ e, Sound.Load fs s sc = .ok (e, s1)) l l1 := by
  induction l with
  | nil => intro r _; exact ⟨[], r, rfl, List.Forall₂.nil⟩
  | cons x rest ih =>
    intro r h
    obtain ⟨e, x1, hx⟩ := h x (by simp)
    obtain ⟨l1, r1, hl, hall⟩ := ih (r + x.Weight) (fun s hs => h s (List.mem_cons_of_mem _ hs))
    refine ⟨x1 :: l1, r1, ?_, List.Forall₂.cons ⟨e, hx⟩ hall⟩
    simp only [SoundCollection.Load.loop, hx, hl]


/-- Claim C13: frame fidelity round trip.  For frames of at most 32767 bytes each,
written one after the other behind their 2-byte little-endian lengths, `Sound.Load`
into an empty buffer returns no error and leaves exactly these frames in the buffer;
`Sound.Play` then sends `Speaking(true)`, the frames in this order, none added, dropped
or repeated, and `Speaking(false)`. -/
theorem Load_Play_round_trip (fs : String → Option (List Byte)) (s : Sound)
    (c : SoundCollection) (frames : List Frame)
    (hempty : s.buffer = [])
    (hlen : ∀ f ∈ frames, f.length ≤ 32767)
    (hfile : fs (s.path c) = some (encodeFrames frames)) :
    ∃ s1, Sound.Load fs s c = .ok (none, s1) ∧ s1.buffer = frames ∧
      s1.Play = .speaking true :: (frames.map .opusSend ++ [.speaking false]) ∧
      sentClips s1.Play = [frames] := by
  refine ⟨{ s with buffer := frames }, ?_, rfl, ?_, ?_⟩
  · rw [Sound_Load_path, hfile]
    simp only
    rw [Sound_Load_loop_encodeFrames frames _ s.buffer hlen (Nat.le_refl _), hempty]
    rfl
  · simp [Sound.Play]
  · have := sentClipsFrom_Play { s with buffer := frames } none []
    simpa [sentClips, sentClipsFrom] using this

theorem Load_Play_round_trip_witness :
    ∃ s1, Sound.Load exFiles (createSound "default" 1000 250) exFresh = .ok (none, s1) ∧
      s1.buffer = [[10, 11], [12]] ∧
      s1.Play = .speaking true ::
        ([[10, 11], [12]].map Event.opusSend ++ [.speaking false]) ∧
      sentClips s1.Play = [[[10, 11], [12]]] :=
  Load_Play_round_trip exFiles (createSound "default" 1000 250) exFresh [[10, 11], [12]]
    rfl (by decide) rfl

/-- Claim C12 fails as stated: on a file whose second frame is cut short `Sound.Load`,
started on an empty buffer, returns `io.ErrUnexpectedEOF` and leaves the first frame
in the buffer. -/
theorem Load_error_keeps_frames :
    (createSound "default" 1000 250).buffer = [] ∧
      Sound.Load exTruncated (createSound "default" 1000 250) exFresh =
        .ok (some .ErrUnexpectedEOF,
          { Name := "default", Weight := 1000, PartDelay := 250, buffer := [[10, 11]] }) :=
  ⟨rfl, rfl⟩

/-- On a file whose first header decodes to -1 `Sound.Load` panics in `make`. -/
theorem Load_negative_length_faults :
    Sound.Load exNegative (createSound "default" 1000 250) exFresh =
      .error .makesliceLenOutOfRange := rfl

/-- Claim C12, amended.  If `Sound.Load`, started on an empty buffer, returns an error,
then either the file is missing and the buffer is still empty, or the buffer holds
exactly the frames that precede the frame that is cut short (none when that is the
first frame).  `Sound.Load` does not fault on a file none of whose frame lengths is
negative.  And when no clip's `Load` faults, `SoundCollection.Load` returns with every
clip of the collection as its own `Load` left it, the clips after a failed one
included. -/
theorem Load_failure_keeps_read_frames (fs : String → Option (List Byte))
    (sc : SoundCollection) :
    (∀ (s s1 : Sound) (e : Error), s.buffer = [] → Sound.Load fs s sc = .ok (some e, s1) →
      (fs (s.path sc) = none ∧ s1.buffer = []) ∨
      ∃ file b0 b1 tail, fs (s.path sc) = some file ∧
        Framed file s1.buffer (b0 :: b1 :: tail) ∧
        0 ≤ int16LE b0 b1 ∧ tail.length < (int16LE b0 b1).toNat) ∧
    (∀ s : Sound, (∀ file, fs (s.path sc) = some file → NoNegativeLength file) →
      ∃ e s1, Sound.Load fs s sc = .ok (e, s1)) ∧
    ((∀ s ∈ sc.Sounds, ∃ e s1, Sound.Load fs s sc = .ok (e, s1)) →
      ∃ sc1, sc.Load fs = .ok sc1 ∧
        List.Forall₂ (fun s s1 => ∃ e, Sound.Load fs s sc = .ok (e, s1))
          sc.Sounds sc1.Sounds) := by
  refine ⟨?_, ?_, ?_⟩
  · intro s s1 e hempty h
    rw [Sound_Load_path] at h
    cases hf : fs (s.path sc) with
    | none =>
      rw [hf] at h
      simp only [Except.ok.injEq, Prod.mk.injEq] at h
      exact Or.inl ⟨rfl, by rw [← h.2]; exact hempty⟩
    | some file =>
      rw [hf] at h
      simp only at h
      split at h
      · exact absurd h (by simp)
      · rename_i err buf hloop
        simp only [Except.ok.injEq, Prod.mk.injEq] at h
        obtain ⟨h1, h2⟩ := h
        subst h1
        obtain ⟨frames, b0, b1, tail, hb, hfr, hpos, hshort⟩ :=
          Sound_Load_loop_error _ _ _ _ _ hloop
        refine Or.inr ⟨file, b0, b1, tail, rfl, ?_, hpos, hshort⟩
        rw [← h2]
        simp only
        rw [hb, hempty]
        simpa using hfr
  · intro s hno
    rw [Sound_Load_path]
    cases hf : fs (s.path sc) with
    | none => exact ⟨_, _, rfl⟩
    | some file =>
      obtain ⟨e, buf, hloop⟩ := Sound_Load_loop_no_fault file.length file s.buffer (hno file hf)
      simp only [hloop]
      exact ⟨_, _, rfl⟩
  · intro hall
    obtain ⟨l1, r1, hl, hf2⟩ := Load_loop_visits_all fs sc sc.Sounds sc.soundRange hall
    refine ⟨.mk sc.Prefix sc.Commands l1 sc.ChainWith r1, ?_, hf2⟩
    simp only [SoundCollection.Load, hl]

theorem Load_failure_keeps_read_frames_witness :
    ((exTruncated ((createSound "default" 1000 250).path exFresh) = none ∧
        ({ Name := "default", Weight := 1000, PartDelay := 250, buffer := [[10, 11]] } :
          Sound).buffer = []) ∨
      ∃ file b0 b1 tail,
        exTruncated ((createSound "default" 1000 250).path exFresh) = some file ∧
        Framed file
          ({ Name := "default", Weight := 1000, PartDelay := 250, buffer := [[10, 11]] } :
            Sound).buffer (b0 :: b1 :: tail) ∧
        0 ≤ int16LE b0 b1 ∧ tail.length < (int16LE b0 b1).toNat) ∧
      ∃ sc1, exFresh.Load exTruncated = .ok sc1 ∧
        List.Forall₂ (fun s s1 => ∃ e, Sound.Load exTruncated s exFresh = .ok (e, s1))
          exFresh.Sounds sc1.Sounds :=
  ⟨(Load_failure_keeps_read_frames exTruncated exFresh).1 (createSound "default" 1000 250)
      { Name := "default", Weight := 1000, PartDelay := 250, buffer := [[10, 11]] }
      .ErrUnexpectedEOF rfl rfl,
    (Load_failure_keeps_read_frames exTruncated exFresh).2.2 (fun s hs => by
      simp only [exFresh, SoundCollection.Sounds, exClips, List.mem_cons, List.mem_singleton,
        List.not_mem_nil, or_false] at hs
      rcases hs with rfl | rfl | rfl <;> exact ⟨_, _, rfl⟩)⟩


/-! ## Stats recording -/

theorem key_ne_of_data (a b : String) (h : a.data ≠ b.data) : a ≠ b := by
  intro e; exact h (by rw [e])

/-- A batch whose second command increments `total`, and none of whose other keys is
`total`, holds that increment once. -/
theorem count_total (total k0 k2 k3 k4 k5 s6 s7 s8 m6 m7 m8 : String)
    (h0 : k0 ≠ total) (h2 : k2 ≠ total) (h3 : k3 ≠ total) (h4 : k4 ≠ total)
    (h5 : k5 ≠ total) :
    List.count (Command.Incr total)
      [.Incr k0, .Incr total, .Incr k2, .Incr k3, .Incr k4, .Incr k5, .SAdd s6 m6,
       .SAdd s7 m7, .SAdd s8 m8] = 1 := by
  simp [List.count_cons, h0, h2, h3, h4, h5]

theorem count_other (other k0 k1 k2 k3 k4 k5 s6 s7 s8 m6 m7 m8 : String)
    (h0 : k0 ≠ other) (h1 : k1 ≠ other) (h2 : k2 ≠ other) (h3 : k3 ≠ other)
    (h4 : k4 ≠ other) (h5 : k5 ≠ other) :
    List.count (Command.Incr other)
      [.Incr k0, .Incr k1, .Incr k2, .Incr k3, .Incr k4, .Incr k5, .SAdd s6 m6,
       .SAdd s7 m7, .SAdd s8 m8] = 0 := by
  simp [List.count_cons, h0, h1, h2, h3, h4, h5]

theorem key_ne_total (y total : String) (hy : y = "f" ∨ y = "a")
    (ht : total = "airhorn:f:total" ∨ total = "airhorn:a:total") (kind rest : String)
    (hk : kind = ":sound:" ∨ kind = ":user:" ∨ kind = ":guild:") :
    "airhorn:" ++ (y ++ (kind ++ rest)) ≠ total := by
  apply key_ne_of_data
  rcases hy with rfl | rfl <;> rcases ht with rfl | rfl <;>
    rcases hk with rfl | rfl | rfl <;> simp [String.data_append]

/-- The pipeline `trackSoundStats` queues for a play with clip `sound`, under the key
base `base`. -/
theorem trackSoundStats_some (cli : RedisClient) (play : Play) (sound : Sound)
    (hs : play.Sound = some sound) :
    ∃ warnings, trackSoundStats (some cli) play =
      .ok { batches :=
              [[.Incr "airhorn:total",
                .Incr ("airhorn:" ++ (if play.Forced then "f" else "a") ++ ":total"),
                .Incr ("airhorn:" ++ (if play.Forced then "f" else "a") ++ ":sound:" ++
                  sound.Name),
                .Incr ("airhorn:" ++ (if play.Forced then "f" else "a") ++ ":user:" ++
                  play.UserID ++ ":sound:" ++ sound.Name),
                .Incr ("airhorn:" ++ (if play.Forced then "f" else "a") ++ ":guild:" ++
                  play.GuildID ++ ":sound:" ++ sound.Name),
                .Incr ("airhorn:" ++ (if play.Forced then "f" else "a") ++ ":guild:" ++
                  play.GuildID ++ ":chan:" ++ play.ChannelID ++ ":sound:" ++ sound.Name),
                .SAdd ("airhorn:" ++ (if play.Forced then "f" else "a") ++ ":users")
                  play.UserID,
                .SAdd ("airhorn:" ++ (if play.Forced then "f" else "a") ++ ":guilds")
                  play.GuildID,
                .SAdd ("airhorn:" ++ (if play.Forced then "f" else "a") ++ ":channels")
                  play.ChannelID]],
            warnings := warnings } := by
  simp only [trackSoundStats, hs]
  split
  · exact ⟨_, rfl⟩
  · exact ⟨_, rfl⟩

/-- Claim C14: stats recording.  Without a store `trackSoundStats` issues no command.
With a store, for a play whose clip is resolved, it has one pipeline executed: the
increments of the global total, of the forced or ambient total, per clip, per
requester and clip, per guild and clip, per channel and clip, then the set additions
of requester, guild and channel; six increments and three additions, every key but
the global total under `airhorn:f` for a forced play and `airhorn:a` otherwise, so
that exactly one of the two totals is incremented, once.  Whether the pipeline fails
changes the warning logged, not the outcome of the call. -/
theorem trackSoundStats_commands (play : Play) :
    trackSoundStats none play = .ok { batches := [], warnings := [] } ∧
    ∀ (cli : RedisClient) (sound : Sound), play.Sound = some sound →
      ∃ batch warnings,
        trackSoundStats (some cli) play = .ok { batches := [batch], warnings := warnings } ∧
        batch =
          [.Incr "airhorn:total",
           .Incr ((if play.Forced then "airhorn:f" else "airhorn:a") ++ ":total"),
           .Incr ((if play.Forced then "airhorn:f" else "airhorn:a") ++ ":sound:" ++
             sound.Name),
           .Incr ((if play.Forced then "airhorn:f" else "airhorn:a") ++ ":user:" ++
             play.UserID ++ ":sound:" ++ sound.Name),
           .Incr ((if play.Forced then "airhorn:f" else "airhorn:a") ++ ":guild:" ++
             play.GuildID ++ ":sound:" ++ sound.Name),
           .Incr ((if play.Forced then "airhorn:f" else "airhorn:a") ++ ":guild:" ++
             play.GuildID ++ ":chan:" ++ play.ChannelID ++ ":sound:" ++ sound.Name),
           .SAdd ((if play.Forced then "airhorn:f" else "airhorn:a") ++ ":users")
             play.UserID,
           .SAdd ((if play.Forced then "airhorn:f" else "airhorn:a") ++ ":guilds")
             play.GuildID,
           .SAdd ((if play.Forced then "airhorn:f" else "airhorn:a") ++ ":channels")
             play.ChannelID] ∧
        (batch.filter Command.isIncr).length = 6 ∧
        (batch.filter (fun c => !c.isIncr)).length = 3 ∧
        (∀ c ∈ batch.drop 1, ∃ rest,
          c.key = (if play.Forced then "airhorn:f" else "airhorn:a") ++ rest) ∧
        batch.count (.Incr "airhorn:f:total") = (if play.Forced then 1 else 0) ∧
        batch.count (.Incr "airhorn:a:total") = (if play.Forced then 0 else 1) := by
  refine ⟨rfl, ?_⟩
  intro cli sound hs
  obtain ⟨warnings, hw⟩ := trackSoundStats_some cli play sound hs
  refine ⟨_, warnings, hw, ?_, rfl, rfl, ?_, ?_, ?_⟩
  · cases hf : play.Forced <;> rfl
  · intro c hc
    cases hf : play.Forced <;> simp only [hf] at hc ⊢ <;>
      simp only [List.drop_succ_cons, List.drop_zero, List.mem_cons, List.mem_singleton,
        List.not_mem_nil, or_false] at hc <;>
      rcases hc with h | h | h | h | h | h | h | h <;> subst h <;>
      simp only [Command.key] <;>
      first
        | exact ⟨_, by simp only [String.append_assoc]; rfl⟩
  · cases hf : play.Forced
    · simp only [Bool.false_eq_true, if_false, String.append_assoc]
      exact count_other _ _ _ _ _ _ _ _ _ _ _ _ _ (by decide)
        (key_ne_of_data _ _ (by decide))
        (key_ne_total "a" _ (Or.inr rfl) (Or.inl rfl) ":sound:" _ (Or.inl rfl))
        (key_ne_total "a" _ (Or.inr rfl) (Or.inl rfl) ":user:" _ (Or.inr (Or.inl rfl)))
        (key_ne_total "a" _ (Or.inr rfl) (Or.inl rfl) ":guild:" _ (Or.inr (Or.inr rfl)))
        (key_ne_total "a" _ (Or.inr rfl) (Or.inl rfl) ":guild:" _ (Or.inr (Or.inr rfl)))
    · simp only [if_true, String.append_assoc]
      exact count_total "airhorn:f:total" _ _ _ _ _ _ _ _ _ _ _ (by decide)
        (key_ne_total "f" _ (Or.inl rfl) (Or.inl rfl) ":sound:" _ (Or.inl rfl))
        (key_ne_total "f" _ (Or.inl rfl) (Or.inl rfl) ":user:" _ (Or.inr (Or.inl rfl)))
        (key_ne_total "f" _ (Or.inl rfl) (Or.inl rfl) ":guild:" _ (Or.inr (Or.inr rfl)))
        (key_ne_total "f" _ (Or.inl rfl) (Or.inl rfl) ":guild:" _ (Or.inr (Or.inr rfl)))
  · cases hf : play.Forced
    · simp only [Bool.false_eq_true, if_false, String.append_assoc]
      exact count_total "airhorn:a:total" _ _ _ _ _ _ _ _ _ _ _ (by decide)
        (key_ne_total "a" _ (Or.inr rfl) (Or.inr rfl) ":sound:" _ (Or.inl rfl))
        (key_ne_total "a" _ (Or.inr rfl) (Or.inr rfl) ":user:" _ (Or.inr (Or.inl rfl)))
        (key_ne_total "a" _ (Or.inr rfl) (Or.inr rfl) ":guild:" _ (Or.inr (Or.inr rfl)))
        (key_ne_total "a" _ (Or.inr rfl) (Or.inr rfl) ":guild:" _ (Or.inr (Or.inr rfl)))
    · simp only [if_true, String.append_assoc]
      exact count_other _ _ _ _ _ _ _ _ _ _ _ _ _ (by decide)
        (key_ne_of_data _ _ (by decide))
        (key_ne_total "f" _ (Or.inl rfl) (Or.inr rfl) ":sound:" _ (Or.inl rfl))
        (key_ne_total "f" _ (Or.inl rfl) (Or.inr rfl) ":user:" _ (Or.inr (Or.inl rfl)))
        (key_ne_total "f" _ (Or.inl rfl) (Or.inr rfl) ":guild:" _ (Or.inr (Or.inr rfl)))
        (key_ne_total "f" _ (Or.inl rfl) (Or.inr rfl) ":guild:" _ (Or.inr (Or.inr rfl)))

theorem trackSoundStats_commands_witness :
    trackSoundStats (some exRedisDown) exParent =
      .ok { batches :=
              [[.Incr "airhorn:total", .Incr "airhorn:a:total",
                .Incr "airhorn:a:sound:default", .Incr "airhorn:a:user:u1:sound:default",
                .Incr "airhorn:a:guild:G:sound:default",
                .Incr "airhorn:a:guild:G:chan:c1:sound:default",
                .SAdd "airhorn:a:users" "u1", .SAdd "airhorn:a:guilds" "G",
                .SAdd "airhorn:a:channels" "c1"]],
            warnings := ["Failed to track stats in redis: connection refused"] } ∧
      ∃ batch warnings,
        trackSoundStats (some exRedis) exParent =
          .ok { batches := [batch], warnings := warnings } ∧
        batch.count (.Incr "airhorn:f:total") = 0 ∧
        batch.count (.Incr "airhorn:a:total") = 1 :=
  ⟨rfl,
    have h := (trackSoundStats_commands exParent).2 exRedis
      { Name := "default", Weight := 1000, PartDelay := 250, buffer := [[10, 11], [12]] } rfl
    h.elim fun batch h => h.elim fun warnings h =>
      ⟨batch, warnings, h.1, h.2.2.2.2.2.1, h.2.2.2.2.2.2⟩⟩


/-! ## Requester without voice channel; concurrent calls -/

theorem getCurrentVoiceChannel_none (d : Discord) (user : User) (guild : Guild)
    (h : ∀ vs ∈ guild.VoiceStates, vs.UserID ≠ user.ID) :
    getCurrentVoiceChannel d user guild = none := by
  unfold getCurrentVoiceChannel
  have : guild.VoiceStates.find? (fun vs => vs.UserID == user.ID) = none := by
    rw [List.find?_eq_none]
    intro vs hvs
    simpa using h vs hvs
  rw [this]

/-- A requester without voice state in the guild gets no play. -/
theorem createPlay_no_voice_state (d : Discord) (user : User) (guild : Guild)
    (coll : SoundCollection) (sound : Option Sound) (r1 r2 : Nat)
    (h : ∀ vs ∈ guild.VoiceStates, vs.UserID ≠ user.ID) :
    createPlay d user guild coll sound r1 r2 = .ok none := by
  simp only [createPlay, getCurrentVoiceChannel_none d user guild h]

/-- For a requester without voice state in the guild `enqueuePlay` returns at once,
whatever the recursion bound, and leaves the world as it was: no queue is made,
extended or deleted, and nothing is played. -/
theorem enqueuePlay_no_voice_state (d : Discord) (maxQ fuel : Nat) (user : User)
    (guild : Guild) (coll : SoundCollection) (sound : Option Sound) (r1 r2 : Nat) (w : World)
    (h : ∀ vs ∈ guild.VoiceStates, vs.UserID ≠ user.ID) :
    enqueuePlay d maxQ fuel user guild coll sound r1 r2 w = some (.ok w) := by
  simp only [enqueuePlay, createPlay_no_voice_state d user guild coll sound r1 r2 h]

/-- For a requester without voice state in the guild `airhornBomb` dereferences the
nil play, for every count from 0 to 100. -/
theorem airhornBomb_no_voice_state (d : Discord) (AIRHORN : SoundCollection) (guild : Guild)
    (user : User) (count : Int) (r1 r2 : Nat) (rs : Nat → Nat) (w : World)
    (h : ∀ vs ∈ guild.VoiceStates, vs.UserID ≠ user.ID)
    (h0 : 0 ≤ count) (h100 : count ≤ 100) :
    airhornBomb d AIRHORN guild user count r1 r2 rs w = .error .nilDereference := by
  have h1 : ¬ count < 0 := by omega
  have h2 : ¬ count > 100 := by omega
  simp only [airhornBomb, h1, h2, if_false,
    createPlay_no_voice_state d user guild AIRHORN none r1 r2 h]

/-- Claim C11, evaluated on a requester with no voice state in the guild: `createPlay`
returns nil and `enqueuePlay` returns with the world untouched, as claimed; but
`airhornBomb`, the other caller of `createPlay`, reads `play.GuildID` of the nil
play and panics. -/
theorem airhornBomb_nil_play :
    (∀ vs ∈ exGuild.VoiceStates, vs.UserID ≠ exStranger.ID) ∧
      createPlay exDiscord exStranger exGuild exLoaded none 0 0 = .ok none ∧
      enqueuePlay exDiscord MAX_QUEUE_SIZE 0 exStranger exGuild exLoaded none 0 0
        (exActive [exRequest "B"]) = some (.ok (exActive [exRequest "B"])) ∧
      airhornBomb exDiscord exLoaded exGuild exStranger 3 0 0 (fun _ => 0) exIdle =
        .error .nilDereference :=
  ⟨by decide, rfl, rfl, rfl⟩

/-- Run without interruption, the lookup and the branch of `enqueuePlay` are the
registry part of `enqueuePlay` as the sequential model has it. -/
theorem register_eq_lookup_branch (maxQ : Nat) (g : String) (p : Play) (w : World) :
    enqueuePlay.register maxQ g p w =
      enqueuePlay.branch maxQ g p (enqueuePlay.lookup g w) w := by
  unfold enqueuePlay.register enqueuePlay.branch enqueuePlay.lookup
  cases h : w.queues g <;> simp

/-- Claim C15, evaluated on three goroutines `go enqueuePlay(...)` for one Idle
guild.  Scheduled so that A and B both run the lookup before A creates the queue, and
C is queued before B runs its branch, `playSound` is started for A and for B, and B's
fresh queue replaces the one C sits in: two workers for the guild, and the admitted C
lost.  Scheduled one call after the other, there is one worker and B and C are
queued. -/
theorem enqueuePlay_race :
    exOutcome (Sys.run MAX_QUEUE_SIZE [0, 1, 0, 2, 2, 1] exRace) =
        some ([exRequest "A", exRequest "B"], some []) ∧
      exOutcome (Sys.run MAX_QUEUE_SIZE [0, 0, 1, 1, 2, 2] exRace) =
        some ([exRequest "A"], some [exRequest "B", exRequest "C"]) := by
  decide

end Dropbot
